import Mathlib

/-!
# Billing engine (amartha-test): loans, weekly schedules, payments

A shallow embedding of `app/models` and `app/usecases/billing_engine_usecase.go`.

Modelling choices, the same for every definition below:

* `float64` amounts are exact rationals (`ℚ`): the comparisons, the one
  division and the sums of the source are read in exact arithmetic; rounding,
  infinities and NaN are outside the model.
* `time.Time` is an instant, an integer count of nanoseconds; `t.Before(u)` is
  `t < u`. `t.AddDate(0, 0, d)` belongs to the Go standard library and works on
  the wall clock of the instant's location, so it is a parameter, the
  `Calendar`; every start instant of an engine is taken in one location. What
  a proof needs of the calendar is a hypothesis of the theorem (`Forward`).
  A `*time.Time` argument that may be `nil` is an `Option Time`.
* Go `int` is `Int`: the only counters are the week index and the missed
  count, and each is bounded by the number of installments held in memory.
* `map[string]*Loan` is a function `String → Option Loan`; the engine only
  ever stores freshly built loans, so a present key never holds `nil`, and
  the pointers inside a loan are owned values.
* A method that returns an `error` is a state transformer: it yields its
  outcome together with the engine after the call. The two queries return
  no error and write nothing, so they are functions of the engine.
-/

namespace Billing

/-- An instant in nanoseconds (`time.Time`). -/
abbrev Time := Int

/-- Nanoseconds in one day of 24 hours. -/
def nanosPerDay : Int := 86400 * 1000000000

/-- The instant `t.AddDate(0, 0, days)` in the location UTC, where every day
has 24 hours. -/
def addDays (t : Time) (days : Int) : Time := t + days * nanosPerDay

/-- The calendar of a location: `addDays t d` is the instant
`t.AddDate(0, 0, d)` for an instant `t` of that location. -/
structure Calendar where
  addDays : Time → Int → Time

/-- The calendar of UTC. -/
def utcCalendar : Calendar := { addDays := addDays }

/-- Nanoseconds in one hour. -/
def nanosPerHour : Int := 3600 * 1000000000

/-- The calendar of a location that is one hour ahead of UTC until the instant
`change` and sets its clocks back by one hour there. `AddDate` adds the days to
the wall clock; a wall clock reached from before the change that lies at or
after it is read in the new offset, one hour later on the time line. -/
def fallBackCalendar (change : Time) : Calendar :=
  { addDays := fun t days =>
      if t < change ∧ change ≤ t + days * nanosPerDay + nanosPerHour
      then t + days * nanosPerDay + nanosPerHour
      else t + days * nanosPerDay }

/-- A calendar moves forward: from one instant, more days give a later
instant, and a positive number of days gives an instant after the start. -/
def Calendar.Forward (cal : Calendar) : Prop :=
  (∀ (t : Time) (d1 d2 : Int), d1 < d2 → cal.addDays t d1 < cal.addDays t d2) ∧
  (∀ (t : Time) (d : Int), 0 < d → t < cal.addDays t d)

/-- The test `t.Before(u)`. -/
def before (t u : Time) : Bool := decide (t < u)

/-- One schedule entry (`models.Payment`). -/
structure Payment where
  WeekNumber : Int
  DueDate : Time
  Amount : ℚ
  Paid : Bool
deriving DecidableEq

/-- One history entry (`models.PaymentRecord`). -/
structure PaymentRecord where
  WeekNumber : Int
  Amount : ℚ
  PaymentDate : Time
  Successful : Bool
deriving DecidableEq

/-- A loan with its schedule and its payment history (`models.Loan`). -/
structure Loan where
  ID : String
  LoanAmount : ℚ
  InterestRate : ℚ
  TermInWeeks : Int
  WeeklyPayment : ℚ
  StartDate : Time
  Payments : List Payment
  PaymentHistory : List PaymentRecord
deriving DecidableEq

/-- The engine: the loans by identifier (`BillingEngine.Loans`). -/
structure BillingEngine where
  Loans : String → Option Loan

/-- The errors of the engine, one constructor for each message the source
builds. `AmountMismatch` carries the weekly payment that the message prints. -/
inductive Err where
  | InvalidParameters
  | DuplicateLoan
  | LoanNotFound
  | AmountMismatch (weeklyPayment : ℚ)
  | LoanFullyPaid
deriving DecidableEq

/-- The fixed text of an error; for `AmountMismatch` the text up to the
formatted number. -/
def Err.text : Err → String
  | .InvalidParameters => "invalid loan parameters"
  | .DuplicateLoan => "loan already exists"
  | .LoanNotFound => "loan not found"
  | .AmountMismatch _ => "payment must be exactly "
  | .LoanFullyPaid => "loan is already fully paid"

/-- The engine of `NewBillingEngine`: no loans. -/
def NewBillingEngine : BillingEngine := { Loans := fun _ => none }

/-- The assignment `u.Loans[id] = loan`. -/
def storeLoan (u : BillingEngine) (id : String) (loan : Loan) : BillingEngine :=
  { Loans := fun k => if k = id then some loan else u.Loans k }

/-- The schedule loop of `CreateLoan`: `for i := 1; i <= termInWeeks; i++`,
entered at index `i` with the installments appended so far. -/
def scheduleLoop (cal : Calendar) (startDate : Time) (weeklyPayment : ℚ) (termInWeeks : Int)
    (i : Int) (payments : List Payment) : List Payment :=
  if i ≤ termInWeeks then
    scheduleLoop cal startDate weeklyPayment termInWeeks (i + 1)
      (payments ++ [{ WeekNumber := i, DueDate := cal.addDays startDate (7 * i),
                      Amount := weeklyPayment, Paid := false }])
  else payments
termination_by (termInWeeks + 1 - i).toNat
decreasing_by omega

/-- The method `CreateLoan`, with the calendar of the start instant's location:
the created loan or an error, and the engine after the call. -/
def CreateLoan (cal : Calendar) (u : BillingEngine) (id : String) (loanAmount interestRate : ℚ)
    (termInWeeks : Int) (startDate : Time) : Except Err Loan × BillingEngine :=
  if loanAmount ≤ 0 ∨ interestRate ≤ 0 ∨ termInWeeks ≤ 0 then
    (.error .InvalidParameters, u)
  else if (u.Loans id).isSome then
    (.error .DuplicateLoan, u)
  else
    let totalInterest := loanAmount * interestRate
    let totalRepayment := loanAmount + totalInterest
    let weeklyPayment := totalRepayment / (termInWeeks : ℚ)
    let loan : Loan :=
      { ID := id, LoanAmount := loanAmount, InterestRate := interestRate,
        TermInWeeks := termInWeeks, WeeklyPayment := weeklyPayment,
        StartDate := startDate,
        Payments := scheduleLoop cal startDate weeklyPayment termInWeeks 1 [],
        PaymentHistory := [] }
    (.ok loan, storeLoan u id loan)

/-- The summing loop of `GetOutstanding` over the installments still to
visit, with the running total. Each visit dereferences `currentTime`; a
`nil` pointer there is a run-time panic, rendered as `none`. -/
def outstandingLoop (currentTime : Option Time) : List Payment → ℚ → Option ℚ
  | [], outstanding => some outstanding
  | payment :: rest, outstanding =>
    match currentTime with
    | none => none
    | some t =>
      if before payment.DueDate t && !payment.Paid then
        outstandingLoop currentTime rest (outstanding + payment.Amount)
      else
        outstandingLoop currentTime rest outstanding

/-- The method `GetOutstanding`; `none` is the panic on a `nil` instant. -/
def GetOutstanding (u : BillingEngine) (loanID : String) (currentTime : Option Time) :
    Option ℚ :=
  match u.Loans loanID with
  | none => some 0
  | some loan => outstandingLoop currentTime loan.Payments 0

/-- The loop of `IsDelinquent`, `for i := len - 1; i >= 0; i--`, entered with
`i + 1` installments still to visit and the misses counted so far. The loop
starts at `len - 1`, so `payments[i]` is always in range and the `none` branch
is never taken. -/
def delinquentLoop (payments : List Payment) (currentTime : Time) : Nat → Int → Bool
  | 0, _ => false
  | i + 1, missedCount =>
    match payments[i]? with
    | none => false
    | some payment =>
      if before payment.DueDate currentTime && !payment.Paid then
        if missedCount + 1 > 2 then true
        else delinquentLoop payments currentTime i (missedCount + 1)
      else delinquentLoop payments currentTime i missedCount

/-- The method `IsDelinquent`. -/
def IsDelinquent (u : BillingEngine) (loanID : String) (currentTime : Option Time) : Bool :=
  match currentTime with
  | none => false
  | some t =>
    match u.Loans loanID with
    | none => false
    | some loan => delinquentLoop loan.Payments t loan.Payments.length 0

/-- The search loop of `MakePayment`, `for i := range loan.Payments`: the
position `i` and the installment `loan.Payments[i]` of the first entry, in
schedule order, whose paid flag is false; `none` when the loop finds none and
`paymentToMake` stays `nil`. -/
def firstUnpaid : List Payment → Option (Nat × Payment)
  | [] => none
  | payment :: rest =>
    if payment.Paid = false then some (0, payment)
    else (firstUnpaid rest).map (fun found => (found.1 + 1, found.2))

/-- The method `MakePayment`: the error, if any, and the engine after the call. -/
def MakePayment (u : BillingEngine) (loanID : String) (amount : ℚ) (paymentDate : Time) :
    Option Err × BillingEngine :=
  match u.Loans loanID with
  | none => (some .LoanNotFound, u)
  | some loan =>
    if amount ≠ loan.WeeklyPayment then
      (some (.AmountMismatch loan.WeeklyPayment), u)
    else
      match firstUnpaid loan.Payments with
      | none => (some .LoanFullyPaid, u)
      | some (i, paymentToMake) =>
        (none, storeLoan u loanID
          { loan with
            Payments := loan.Payments.set i { paymentToMake with Paid := true }
            PaymentHistory := loan.PaymentHistory ++
              [{ WeekNumber := paymentToMake.WeekNumber, Amount := amount,
                 PaymentDate := paymentDate, Successful := true }] })

/-- The method `GetPaymentSchedule`: the schedule or an error, and the engine
after the call. -/
def GetPaymentSchedule (u : BillingEngine) (loanID : String) :
    Except Err (List Payment) × BillingEngine :=
  match u.Loans loanID with
  | none => (.error .LoanNotFound, u)
  | some loan => (.ok loan.Payments, u)

/-! ### Definitions used to state the properties -/

/-- The installment of week `i` in a schedule that starts at `startDate`. -/
def weekEntry (cal : Calendar) (startDate : Time) (weeklyPayment : ℚ) (i : Int) : Payment :=
  { WeekNumber := i, DueDate := cal.addDays startDate (7 * i), Amount := weeklyPayment,
    Paid := false }

/-- An installment is overdue and unpaid at `asOf`: its due date is strictly
before `asOf` and its paid flag is false. -/
def overdueUnpaid (asOf : Time) (p : Payment) : Bool :=
  decide (p.DueDate < asOf) && !p.Paid

/-- The outstanding balance in the words of the specification: the sum of the
amounts of the installments that are overdue and unpaid at `asOf`. -/
def outstandingSum (asOf : Time) (payments : List Payment) : ℚ :=
  ((payments.filter (overdueUnpaid asOf)).map (fun p => p.Amount)).sum

/-- The number of installments of a schedule that are overdue and unpaid at
`asOf`, wherever they lie. -/
def missedTotal (asOf : Time) (payments : List Payment) : Nat :=
  payments.countP (overdueUnpaid asOf)

/-- A schedule is in ascending week-number order. -/
def weeksAscending (payments : List Payment) : Prop :=
  payments.Pairwise (fun a b => a.WeekNumber < b.WeekNumber)

/-- A loan of four weeks whose first installment is paid and whose other three
are not. -/
def lateLoan : Loan :=
  { ID := "A", LoanAmount := 40, InterestRate := 1 / 10, TermInWeeks := 4,
    WeeklyPayment := 11, StartDate := 0,
    Payments := [{ WeekNumber := 1, DueDate := addDays 0 7, Amount := 11, Paid := true },
                 { WeekNumber := 2, DueDate := addDays 0 14, Amount := 11, Paid := false },
                 { WeekNumber := 3, DueDate := addDays 0 21, Amount := 11, Paid := false },
                 { WeekNumber := 4, DueDate := addDays 0 28, Amount := 11, Paid := false }],
    PaymentHistory := [{ WeekNumber := 1, Amount := 11, PaymentDate := addDays 0 7,
                         Successful := true }] }

/-- A loan of one week whose only installment is paid. -/
def settledLoan : Loan :=
  { ID := "B", LoanAmount := 10, InterestRate := 1 / 10, TermInWeeks := 1,
    WeeklyPayment := 11, StartDate := 0,
    Payments := [{ WeekNumber := 1, DueDate := addDays 0 7, Amount := 11, Paid := true }],
    PaymentHistory := [{ WeekNumber := 1, Amount := 11, PaymentDate := addDays 0 7,
                         Successful := true }] }

/-- An engine that holds `lateLoan` under "A" and `settledLoan` under "B". -/
def lateEngine : BillingEngine :=
  storeLoan (storeLoan NewBillingEngine "A" lateLoan) "B" settledLoan

/-- The engine after `CreateLoan("100", 5000000, 0.10, 50, 0)` on a new engine,
in UTC. -/
def demoEngine : BillingEngine :=
  (CreateLoan utcCalendar NewBillingEngine "100" 5000000 (1 / 10) 50 0).2

/-- The schedule of `term` weeks that starts at `startDate`, with its first `k`
installments paid and the others unpaid. -/
def paidUpTo (cal : Calendar) (startDate : Time) (weeklyPayment : ℚ) (term k : Nat) :
    List Payment :=
  (List.range term).map (fun j : Nat =>
    { WeekNumber := (j : Int) + 1, DueDate := cal.addDays startDate (7 * ((j : Int) + 1)),
      Amount := weeklyPayment, Paid := decide (j < k) })

/-- The shape of a loan that `CreateLoan` built and that has accepted `k`
payments since: positive term and weekly payment, the schedule of `paidUpTo`,
and one history record for each of the weeks `1..k`, in that order. -/
def LoanInv (cal : Calendar) (loan : Loan) (k : Nat) : Prop :=
  0 < loan.TermInWeeks ∧ 0 < loan.WeeklyPayment ∧ k ≤ loan.TermInWeeks.toNat ∧
  loan.Payments =
    paidUpTo cal loan.StartDate loan.WeeklyPayment loan.TermInWeeks.toNat k ∧
  loan.PaymentHistory.map (fun r => (r.WeekNumber, r.Amount, r.Successful)) =
    (List.range k).map (fun j : Nat => ((j : Int) + 1, loan.WeeklyPayment, true))

/-- The engines that the methods can produce with start instants of one
location: the new engine, and the engine after any call of `CreateLoan` or
`MakePayment`, failed or not, on such an engine. -/
inductive Reachable (cal : Calendar) : BillingEngine → Prop
  | init : Reachable cal NewBillingEngine
  | createLoan (u : BillingEngine) (id : String) (loanAmount interestRate : ℚ)
      (termInWeeks : Int) (startDate : Time) :
      Reachable cal u →
      Reachable cal (CreateLoan cal u id loanAmount interestRate termInWeeks startDate).2
  | makePayment (u : BillingEngine) (loanID : String) (amount : ℚ) (paymentDate : Time) :
      Reachable cal u → Reachable cal (MakePayment u loanID amount paymentDate).2

/-- The arguments of one call of `MakePayment`. -/
structure PaymentCall where
  loanID : String
  amount : ℚ
  paymentDate : Time

/-- A sequence of `MakePayment` calls made one after the other: the error of
each call, in order, and the engine after the last one. -/
def runPayments (u : BillingEngine) : List PaymentCall → List (Option Err) × BillingEngine
  | [] => ([], u)
  | c :: rest =>
    ((MakePayment u c.loanID c.amount c.paymentDate).1 ::
        (runPayments (MakePayment u c.loanID c.amount c.paymentDate).2 rest).1,
     (runPayments (MakePayment u c.loanID c.amount c.paymentDate).2 rest).2)

/-- The engine of the scenario: a new engine, the loan "100" of 5,000,000 at
0.10 over 50 weeks from `T0`, then a payment of 110,000 at `T0 + 7` days and
another at `T0 + 14` days. -/
def scenarioEngine (cal : Calendar) (T0 : Time) : BillingEngine :=
  (MakePayment
    (MakePayment (CreateLoan cal NewBillingEngine "100" 5000000 (1 / 10) 50 T0).2
      "100" 110000 (cal.addDays T0 7)).2
    "100" 110000 (cal.addDays T0 14)).2

/-- The loan that `CreateLoan` builds and stores when both checks pass. -/
def builtLoan (cal : Calendar) (id : String) (loanAmount interestRate : ℚ)
    (termInWeeks : Int) (startDate : Time) : Loan :=
  { ID := id, LoanAmount := loanAmount, InterestRate := interestRate,
    TermInWeeks := termInWeeks,
    WeeklyPayment := (loanAmount + loanAmount * interestRate) / (termInWeeks : ℚ),
    StartDate := startDate,
    Payments := scheduleLoop cal startDate
      ((loanAmount + loanAmount * interestRate) / (termInWeeks : ℚ)) termInWeeks 1 [],
    PaymentHistory := [] }

/-- The loan after `MakePayment` has matched a payment made at `paymentDate` to
the installment `p` found at position `i`. -/
def paidLoan (loan : Loan) (i : Nat) (p : Payment) (paymentDate : Time) : Loan :=
  { loan with
    Payments := loan.Payments.set i { p with Paid := true }
    PaymentHistory := loan.PaymentHistory ++
      [{ WeekNumber := p.WeekNumber, Amount := loan.WeeklyPayment,
         PaymentDate := paymentDate, Successful := true }] }

/-- The calls that pay one loan the same amount at each of the given instants. -/
def weeklyCalls (loanID : String) (amount : ℚ) (dates : List Time) : List PaymentCall :=
  dates.map (fun d => { loanID := loanID, amount := amount, paymentDate := d })

/-- What a call may do to a stored loan: every installment that was paid is
still paid, at the same position, and the payment history is the old one with
records appended. -/
def onlyGrows (loan loan' : Loan) : Prop :=
  (∀ (j : Nat) (p : Payment), loan.Payments[j]? = some p → p.Paid = true →
    ∃ p' : Payment, loan'.Payments[j]? = some p' ∧ p'.Paid = true) ∧
  ∃ appended : List PaymentRecord, loan'.PaymentHistory = loan.PaymentHistory ++ appended

variable {cal : Calendar}

/-! ## Loan creation -/

theorem utcCalendar_forward : utcCalendar.Forward := by
  constructor
  · intro t d1 d2 h
    show t + d1 * (86400 * 1000000000) < t + d2 * (86400 * 1000000000)
    linarith
  · intro t d h
    show t < t + d * (86400 * 1000000000)
    linarith

theorem scheduleLoop_eq (startDate : Time) (weeklyPayment : ℚ) (termInWeeks : Int) :
    ∀ (n : Nat) (i : Int) (payments : List Payment), (termInWeeks + 1 - i).toNat = n →
      scheduleLoop cal startDate weeklyPayment termInWeeks i payments =
        payments ++ (List.range n).map
          (fun k : Nat => weekEntry cal startDate weeklyPayment (i + (k : Int))) := by
  intro n
  induction n with
  | zero =>
    intro i payments h
    have hi : ¬ i ≤ termInWeeks := by omega
    rw [scheduleLoop, if_neg hi]
    simp
  | succ n ih =>
    intro i payments h
    have hi : i ≤ termInWeeks := by omega
    rw [scheduleLoop, if_pos hi, ih (i + 1) _ (by omega), List.range_succ_eq_map]
    simp only [List.map_cons, List.map_map, List.append_assoc, List.singleton_append]
    congr 2
    · simp [weekEntry]
    · apply List.map_congr_left
      intro k _
      simp only [Function.comp, Nat.succ_eq_add_one, Nat.cast_add, Nat.cast_one]
      congr 1
      ring

theorem schedule_of_term (startDate : Time) (weeklyPayment : ℚ) (termInWeeks : Int) :
    scheduleLoop cal startDate weeklyPayment termInWeeks 1 [] =
      (List.range termInWeeks.toNat).map
        (fun k : Nat => weekEntry cal startDate weeklyPayment ((k : Int) + 1)) := by
  rw [scheduleLoop_eq startDate weeklyPayment termInWeeks termInWeeks.toNat 1 [] (by omega)]
  simp only [List.nil_append]
  apply List.map_congr_left
  intro k _
  rw [add_comm]

theorem createLoan_fresh (u : BillingEngine) (id : String) (loanAmount interestRate : ℚ)
    (termInWeeks : Int) (startDate : Time) (hid : u.Loans id = none)
    (hp : 0 < loanAmount) (hr : 0 < interestRate) (ht : 0 < termInWeeks) :
    CreateLoan cal u id loanAmount interestRate termInWeeks startDate =
      (.ok { ID := id, LoanAmount := loanAmount, InterestRate := interestRate,
             TermInWeeks := termInWeeks,
             WeeklyPayment := (loanAmount + loanAmount * interestRate) / (termInWeeks : ℚ),
             StartDate := startDate,
             Payments := scheduleLoop cal startDate
               ((loanAmount + loanAmount * interestRate) / (termInWeeks : ℚ)) termInWeeks 1 [],
             PaymentHistory := [] },
       storeLoan u id
           { ID := id, LoanAmount := loanAmount, InterestRate := interestRate,
             TermInWeeks := termInWeeks,
             WeeklyPayment := (loanAmount + loanAmount * interestRate) / (termInWeeks : ℚ),
             StartDate := startDate,
             Payments := scheduleLoop cal startDate
               ((loanAmount + loanAmount * interestRate) / (termInWeeks : ℚ)) termInWeeks 1 [],
             PaymentHistory := [] }) := by
  have hv : ¬ (loanAmount ≤ 0 ∨ interestRate ≤ 0 ∨ termInWeeks ≤ 0) := by
    rintro (h | h | h)
    · exact absurd hp (not_lt.mpr h)
    · exact absurd hr (not_lt.mpr h)
    · omega
  unfold CreateLoan
  rw [if_neg hv]
  simp [hid]

/-- Claim C1: in any engine, for an identifier not yet present and strictly
positive principal, rate and term, `CreateLoan` succeeds and stores the loan it
returns under the identifier; the schedule has exactly `term` installments, the
entry for each week `i = 1..term` sits at position `i` and has week number `i`,
due date `T0 + 7 * i` days, the loan's weekly payment as amount and paid = false;
the payment history is empty. -/
theorem createLoan_succeeds (u : BillingEngine) (id : String) (loanAmount interestRate : ℚ)
    (termInWeeks : Int) (startDate : Time) (hid : u.Loans id = none)
    (hp : 0 < loanAmount) (hr : 0 < interestRate) (ht : 0 < termInWeeks) :
    ∃ loan : Loan,
      (CreateLoan cal u id loanAmount interestRate termInWeeks startDate).1 = .ok loan ∧
      (CreateLoan cal u id loanAmount interestRate termInWeeks startDate).2.Loans id = some loan ∧
      (loan.Payments.length : Int) = termInWeeks ∧
      (∀ i : Int, 1 ≤ i → i ≤ termInWeeks →
        loan.Payments[(i - 1).toNat]? =
          some { WeekNumber := i, DueDate := cal.addDays startDate (7 * i),
                 Amount := loan.WeeklyPayment, Paid := false }) ∧
      loan.PaymentHistory = [] := by
  rw [createLoan_fresh u id loanAmount interestRate termInWeeks startDate hid hp hr ht]
  refine ⟨_, rfl, ?_, ?_, ?_, rfl⟩
  · simp [storeLoan]
  · simp only [schedule_of_term, List.length_map, List.length_range]
    omega
  · intro i h1 hi
    simp only [schedule_of_term]
    rw [List.getElem?_map, List.getElem?_range (by omega)]
    simp only [Option.map_some', weekEntry]
    have : (((i - 1).toNat : Nat) : Int) + 1 = i := by omega
    rw [this]

theorem createLoan_succeeds_witness :
    NewBillingEngine.Loans "100" = none ∧ (0 : ℚ) < 5000000 ∧ (0 : ℚ) < 1 / 10 ∧
    (0 : Int) < 50 ∧
    ∃ loan : Loan,
      (CreateLoan utcCalendar NewBillingEngine "100" 5000000 (1 / 10) 50 0).1 = .ok loan ∧
      (CreateLoan utcCalendar NewBillingEngine "100" 5000000 (1 / 10) 50 0).2.Loans "100" = some loan ∧
      (loan.Payments.length : Int) = 50 ∧
      (∀ i : Int, 1 ≤ i → i ≤ 50 →
        loan.Payments[(i - 1).toNat]? =
          some { WeekNumber := i, DueDate := addDays 0 (7 * i),
                 Amount := loan.WeeklyPayment, Paid := false }) ∧
      loan.PaymentHistory = [] :=
  ⟨rfl, by norm_num, by norm_num, by decide,
   createLoan_succeeds NewBillingEngine "100" 5000000 (1 / 10) 50 0 rfl
     (by norm_num) (by norm_num) (by decide)⟩

/-! ## Payments -/

theorem firstUnpaid_some {payments : List Payment} {i : Nat} {p : Payment}
    (h : firstUnpaid payments = some (i, p)) :
    payments[i]? = some p ∧ p.Paid = false ∧
      ∀ (j : Nat) (q : Payment), j < i → payments[j]? = some q → q.Paid = true := by
  induction payments generalizing i with
  | nil => simp [firstUnpaid] at h
  | cons a rest ih =>
    unfold firstUnpaid at h
    by_cases ha : a.Paid = false
    · rw [if_pos ha] at h
      simp only [Option.some.injEq, Prod.mk.injEq] at h
      obtain ⟨rfl, rfl⟩ := h
      exact ⟨by simp, ha, fun j q hj _ => absurd hj (Nat.not_lt_zero j)⟩
    · rw [if_neg ha] at h
      cases hr : firstUnpaid rest with
      | none => simp [hr] at h
      | some found =>
        obtain ⟨k, p'⟩ := found
        simp only [hr, Option.map_some', Option.some.injEq, Prod.mk.injEq] at h
        obtain ⟨rfl, rfl⟩ := h
        obtain ⟨h1, h2, h3⟩ := ih hr
        refine ⟨by simpa using h1, h2, ?_⟩
        intro j q hj hq
        cases j with
        | zero =>
          simp only [List.getElem?_cons_zero, Option.some.injEq] at hq
          subst hq
          simpa using ha
        | succ j =>
          simp only [List.getElem?_cons_succ] at hq
          exact h3 j q (by omega) hq

theorem firstUnpaid_none {payments : List Payment} :
    firstUnpaid payments = none ↔ ∀ p ∈ payments, p.Paid = true := by
  induction payments with
  | nil => simp [firstUnpaid]
  | cons a rest ih =>
    unfold firstUnpaid
    by_cases ha : a.Paid = false
    · simp [ha]
    · have ha' : a.Paid = true := by simpa using ha
      simp [ha', ih]

theorem firstUnpaid_exists {payments : List Payment}
    (h : ∃ p ∈ payments, p.Paid = false) : ∃ i p, firstUnpaid payments = some (i, p) := by
  cases hf : firstUnpaid payments with
  | none =>
    obtain ⟨p, hp, hpaid⟩ := h
    have := firstUnpaid_none.mp hf p hp
    simp [hpaid] at this
  | some found => exact ⟨found.1, found.2, rfl⟩

theorem lowest_week_of_first {payments : List Payment} {i : Nat} {p : Payment}
    (hasc : weeksAscending payments) (hp : payments[i]? = some p)
    (hprev : ∀ (j : Nat) (q : Payment), j < i → payments[j]? = some q → q.Paid = true) :
    ∀ q ∈ payments, q.Paid = false → p.WeekNumber ≤ q.WeekNumber := by
  intro q hq hqu
  obtain ⟨j, hj⟩ := List.getElem?_of_mem hq
  have hij : ¬ j < i := fun hlt => by
    have := hprev j q hlt hj
    simp [hqu] at this
  rcases Nat.eq_or_lt_of_le (Nat.le_of_not_lt hij) with heq | hlt
  · subst heq
    rw [hp] at hj
    rw [Option.some.inj hj]
  · have hjl : j < payments.length := (List.getElem?_eq_some_iff.mp hj).1
    have hil : i < payments.length := (List.getElem?_eq_some_iff.mp hp).1
    have hlt' := List.pairwise_iff_getElem.mp hasc i j hil hjl hlt
    have e1 : payments[i] = p := (List.getElem?_eq_some_iff.mp hp).2
    have e2 : payments[j] = q := (List.getElem?_eq_some_iff.mp hj).2
    rw [e1, e2] at hlt'
    exact le_of_lt hlt'

theorem makePayment_accept (u : BillingEngine) (id : String) (loan : Loan) (i : Nat)
    (p : Payment) (paymentDate : Time) (hl : u.Loans id = some loan)
    (hf : firstUnpaid loan.Payments = some (i, p)) :
    MakePayment u id loan.WeeklyPayment paymentDate =
      (none, storeLoan u id
        { loan with
          Payments := loan.Payments.set i { p with Paid := true }
          PaymentHistory := loan.PaymentHistory ++
            [{ WeekNumber := p.WeekNumber, Amount := loan.WeeklyPayment,
               PaymentDate := paymentDate, Successful := true }] }) := by
  simp [MakePayment, hl, hf]

/-! ## Outstanding balance -/

theorem outstandingLoop_eq (asOf : Time) (payments : List Payment) :
    ∀ acc : ℚ, outstandingLoop (some asOf) payments acc =
      some (acc + outstandingSum asOf payments) := by
  induction payments with
  | nil => intro acc; simp [outstandingLoop, outstandingSum]
  | cons a rest ih =>
    intro acc
    unfold outstandingLoop
    by_cases h : (before a.DueDate asOf && !a.Paid) = true
    · have h' : overdueUnpaid asOf a = true := h
      simp only [h, if_true, ih]
      simp only [outstandingSum, List.filter_cons, h', if_true, List.map_cons, List.sum_cons,
        add_assoc]
    · have h' : ¬ overdueUnpaid asOf a = true := h
      simp only [h, if_false, ih]
      simp only [outstandingSum, List.filter_cons, h', if_false]
      simp

/-- Claim C3: for a loan present in the engine and an instant `asOf`,
`GetOutstanding` returns exactly the sum of the amounts of the installments
whose due date is strictly before `asOf` and whose paid flag is false; no other
installment contributes. -/
theorem getOutstanding_eq_sum (u : BillingEngine) (id : String) (loan : Loan) (asOf : Time)
    (hl : u.Loans id = some loan) :
    GetOutstanding u id (some asOf) =
      some ((loan.Payments.filter
        (fun p => decide (p.DueDate < asOf) && !p.Paid)).map (fun p => p.Amount)).sum := by
  simp only [GetOutstanding, hl, outstandingLoop_eq, zero_add]
  rfl

theorem getOutstanding_eq_sum_witness :
    lateEngine.Loans "A" = some lateLoan ∧
    GetOutstanding lateEngine "A" (some (addDays 0 22)) =
      some ((lateLoan.Payments.filter
        (fun p => decide (p.DueDate < addDays 0 22) && !p.Paid)).map (fun p => p.Amount)).sum :=
  ⟨rfl, getOutstanding_eq_sum lateEngine "A" lateLoan (addDays 0 22) rfl⟩

/-! ## Delinquency -/

theorem delinquentLoop_iff (payments : List Payment) (asOf : Time) :
    ∀ (n : Nat) (missedCount : Int), n ≤ payments.length → missedCount ≤ 2 →
      (delinquentLoop payments asOf n missedCount = true ↔
        3 ≤ missedCount + (missedTotal asOf (payments.take n) : Int)) := by
  intro n
  induction n with
  | zero =>
    intro m _ hm
    simp only [delinquentLoop, List.take_zero, missedTotal, List.countP_nil]
    constructor
    · intro h; cases h
    · intro h; omega
  | succ n ih =>
    intro m hn hm
    have hlt : n < payments.length := by omega
    have hget : payments[n]? = some payments[n] := List.getElem?_eq_getElem hlt
    have htake : missedTotal asOf (payments.take (n + 1)) =
        missedTotal asOf (payments.take n) + (if overdueUnpaid asOf payments[n] then 1 else 0) := by
      simp only [missedTotal, List.take_succ, hget, Option.toList_some, List.countP_append,
        List.countP_cons, List.countP_nil, zero_add]
    unfold delinquentLoop
    simp only [hget]
    by_cases h : (before payments[n].DueDate asOf && !payments[n].Paid) = true
    · have h' : overdueUnpaid asOf payments[n] = true := h
      simp only [h, if_true, htake, h']
      by_cases h2 : m + 1 > 2
      · simp only [h2, if_true, true_iff]
        push_cast
        omega
      · simp only [h2, if_false]
        rw [ih (m + 1) (by omega) (by omega)]
        push_cast
        omega
    · have h' : ¬ overdueUnpaid asOf payments[n] = true := h
      simp only [h, htake, h', Bool.false_eq_true, if_false]
      rw [ih m (by omega) hm]
      simp

/-- Claim C4: for a loan present in the engine and an instant `asOf`,
`IsDelinquent` returns true exactly when at least 3 installments of the whole
schedule are due strictly before `asOf` and unpaid: the backward scan with early
exit agrees with the global count, wherever those installments lie. -/
theorem isDelinquent_iff_three_missed (u : BillingEngine) (id : String) (loan : Loan)
    (asOf : Time) (hl : u.Loans id = some loan) :
    IsDelinquent u id (some asOf) = true ↔
      3 ≤ (loan.Payments.filter (fun p => decide (p.DueDate < asOf) && !p.Paid)).length := by
  simp only [IsDelinquent, hl]
  rw [delinquentLoop_iff loan.Payments asOf loan.Payments.length 0 (le_refl _) (by decide)]
  simp only [List.take_length, zero_add, missedTotal, List.countP_eq_length_filter]
  constructor
  · intro h
    have : (3 : Int) ≤ ((List.filter (overdueUnpaid asOf) loan.Payments).length : Int) := h
    exact_mod_cast this
  · intro h
    have : 3 ≤ (List.filter (overdueUnpaid asOf) loan.Payments).length := h
    exact_mod_cast this

theorem isDelinquent_iff_three_missed_witness :
    lateEngine.Loans "A" = some lateLoan ∧
    (IsDelinquent lateEngine "A" (some (addDays 0 29)) = true ↔
      3 ≤ (lateLoan.Payments.filter
        (fun p => decide (p.DueDate < addDays 0 29) && !p.Paid)).length) :=
  ⟨rfl, isDelinquent_iff_three_missed lateEngine "A" lateLoan (addDays 0 29) rfl⟩

/-! ## Errors -/

theorem createLoan_invalid (u : BillingEngine) (id : String) (loanAmount interestRate : ℚ)
    (termInWeeks : Int) (startDate : Time)
    (h : loanAmount ≤ 0 ∨ interestRate ≤ 0 ∨ termInWeeks ≤ 0) :
    CreateLoan cal u id loanAmount interestRate termInWeeks startDate =
      (.error .InvalidParameters, u) := by
  unfold CreateLoan
  rw [if_pos h]

theorem createLoan_valid_cases (u : BillingEngine) (id : String) (loanAmount interestRate : ℚ)
    (termInWeeks : Int) (startDate : Time)
    (h : ¬ (loanAmount ≤ 0 ∨ interestRate ≤ 0 ∨ termInWeeks ≤ 0)) :
    CreateLoan cal u id loanAmount interestRate termInWeeks startDate = (.error .DuplicateLoan, u) ∨
    ∃ loan, CreateLoan cal u id loanAmount interestRate termInWeeks startDate =
      (.ok loan, storeLoan u id loan) := by
  unfold CreateLoan
  rw [if_neg h]
  by_cases hs : (u.Loans id).isSome = true
  · left
    rw [if_pos hs]
  · right
    rw [if_neg hs]
    exact ⟨_, rfl⟩

theorem invalid_iff_not_positive (loanAmount interestRate : ℚ) (termInWeeks : Int) :
    (loanAmount ≤ 0 ∨ interestRate ≤ 0 ∨ termInWeeks ≤ 0) ↔
      ¬ (0 < loanAmount ∧ 0 < interestRate ∧ 0 < termInWeeks) := by
  constructor
  · rintro (h | h | h) ⟨hp, hr, ht⟩
    · exact absurd hp (not_lt.mpr h)
    · exact absurd hr (not_lt.mpr h)
    · exact absurd ht (not_lt.mpr h)
  · intro h
    by_contra hc
    push_neg at hc
    exact h hc

/-- Claim C5: in any engine and for all arguments, `CreateLoan` fails with
`InvalidParameters` exactly when principal <= 0 or rate <= 0 or term <= 0; it
never fails with that error when all three are strictly positive; and when it
fails so the engine is unchanged, so no loan is inserted. -/
theorem createLoan_invalid_iff (u : BillingEngine) (id : String) (loanAmount interestRate : ℚ)
    (termInWeeks : Int) (startDate : Time) :
    ((CreateLoan cal u id loanAmount interestRate termInWeeks startDate).1 =
        .error .InvalidParameters ↔
      (loanAmount ≤ 0 ∨ interestRate ≤ 0 ∨ termInWeeks ≤ 0)) ∧
    ((0 < loanAmount ∧ 0 < interestRate ∧ 0 < termInWeeks) →
      (CreateLoan cal u id loanAmount interestRate termInWeeks startDate).1 ≠
        .error .InvalidParameters) ∧
    ((loanAmount ≤ 0 ∨ interestRate ≤ 0 ∨ termInWeeks ≤ 0) →
      (CreateLoan cal u id loanAmount interestRate termInWeeks startDate).2 = u) := by
  have hiff : (CreateLoan cal u id loanAmount interestRate termInWeeks startDate).1 =
        .error .InvalidParameters ↔
      (loanAmount ≤ 0 ∨ interestRate ≤ 0 ∨ termInWeeks ≤ 0) := by
    constructor
    · intro h
      by_contra hc
      rcases createLoan_valid_cases u id loanAmount interestRate termInWeeks startDate hc with
        hd | ⟨loan, hok⟩
      · rw [hd] at h
        cases h
      · rw [hok] at h
        cases h
    · intro h
      rw [createLoan_invalid u id loanAmount interestRate termInWeeks startDate h]
  refine ⟨hiff, ?_, ?_⟩
  · intro hpos hfail
    exact (invalid_iff_not_positive loanAmount interestRate termInWeeks).mp (hiff.mp hfail) hpos
  · intro h
    rw [createLoan_invalid u id loanAmount interestRate termInWeeks startDate h]

/-- Claim C6, as amended: in any engine, `CreateLoan` with an identifier that is
already present always fails and leaves the engine unchanged, so the original
loan with its schedule and its payment history is untouched. The error is
`DuplicateLoan` when principal, rate and term are all strictly positive, and
`InvalidParameters` otherwise, because the parameter check comes first. -/
theorem createLoan_existing_id_fails (u : BillingEngine) (id : String) (loan : Loan)
    (loanAmount interestRate : ℚ) (termInWeeks : Int) (startDate : Time)
    (hl : u.Loans id = some loan) :
    ((0 < loanAmount ∧ 0 < interestRate ∧ 0 < termInWeeks) →
      (CreateLoan cal u id loanAmount interestRate termInWeeks startDate).1 =
        .error .DuplicateLoan) ∧
    ((loanAmount ≤ 0 ∨ interestRate ≤ 0 ∨ termInWeeks ≤ 0) →
      (CreateLoan cal u id loanAmount interestRate termInWeeks startDate).1 =
        .error .InvalidParameters) ∧
    (CreateLoan cal u id loanAmount interestRate termInWeeks startDate).2 = u ∧
    (CreateLoan cal u id loanAmount interestRate termInWeeks startDate).2.Loans id = some loan := by
  by_cases h : loanAmount ≤ 0 ∨ interestRate ≤ 0 ∨ termInWeeks ≤ 0
  · rw [createLoan_invalid u id loanAmount interestRate termInWeeks startDate h]
    refine ⟨fun hpos => ?_, fun _ => rfl, rfl, hl⟩
    exact absurd hpos ((invalid_iff_not_positive loanAmount interestRate termInWeeks).mp h)
  · have hd : CreateLoan cal u id loanAmount interestRate termInWeeks startDate =
        (.error .DuplicateLoan, u) := by
      unfold CreateLoan
      rw [if_neg h, if_pos (by simp [hl])]
    rw [hd]
    exact ⟨fun _ => rfl, fun hinv => absurd hinv h, rfl, hl⟩

theorem createLoan_existing_id_fails_witness :
    lateEngine.Loans "A" = some lateLoan ∧
    ((0 < (6000000 : ℚ) ∧ 0 < (3 / 20 : ℚ) ∧ 0 < (60 : Int)) →
      (CreateLoan utcCalendar lateEngine "A" 6000000 (3 / 20) 60 0).1 = .error .DuplicateLoan) ∧
    (((6000000 : ℚ) ≤ 0 ∨ (3 / 20 : ℚ) ≤ 0 ∨ (60 : Int) ≤ 0) →
      (CreateLoan utcCalendar lateEngine "A" 6000000 (3 / 20) 60 0).1 = .error .InvalidParameters) ∧
    (CreateLoan utcCalendar lateEngine "A" 6000000 (3 / 20) 60 0).2 = lateEngine ∧
    (CreateLoan utcCalendar lateEngine "A" 6000000 (3 / 20) 60 0).2.Loans "A" = some lateLoan :=
  ⟨rfl, createLoan_existing_id_fails lateEngine "A" lateLoan 6000000 (3 / 20) 60 0 rfl⟩

/-- Claim C6 as stated fails: the engine that holds loan "100" after a
successful `CreateLoan` answers a second `CreateLoan` for "100" with principal 0
by `InvalidParameters`, not by `DuplicateLoan`. -/
theorem createLoan_duplicate_not_always :
    (demoEngine.Loans "100").isSome = true ∧
    (CreateLoan utcCalendar demoEngine "100" 0 (1 / 10) 50 0).1 = .error .InvalidParameters ∧
    (CreateLoan utcCalendar demoEngine "100" 0 (1 / 10) 50 0).1 ≠ .error .DuplicateLoan := by
  refine ⟨?_, ?_, ?_⟩
  · rw [demoEngine, createLoan_fresh NewBillingEngine "100" 5000000 (1 / 10) 50 0 rfl
      (by norm_num) (by norm_num) (by decide)]
    simp [storeLoan]
  · simp [CreateLoan]
  · simp [CreateLoan]

/-- Claim C7: for a loan present in the engine, `MakePayment` fails with
`AmountMismatch` exactly when the amount differs from the loan's weekly payment,
whatever the paid flags of the schedule; and when it fails so the engine is
unchanged: no installment changes and no history record is appended. -/
theorem makePayment_mismatch_iff (u : BillingEngine) (id : String) (loan : Loan)
    (amount : ℚ) (paymentDate : Time) (hl : u.Loans id = some loan) :
    ((∃ w, (MakePayment u id amount paymentDate).1 = some (.AmountMismatch w)) ↔
      amount ≠ loan.WeeklyPayment) ∧
    (amount ≠ loan.WeeklyPayment →
      MakePayment u id amount paymentDate = (some (.AmountMismatch loan.WeeklyPayment), u)) := by
  have hne : amount ≠ loan.WeeklyPayment →
      MakePayment u id amount paymentDate = (some (.AmountMismatch loan.WeeklyPayment), u) := by
    intro h
    simp [MakePayment, hl, h]
  refine ⟨⟨?_, fun h => ⟨loan.WeeklyPayment, by rw [hne h]⟩⟩, hne⟩
  rintro ⟨w, hw⟩ heq
  subst heq
  cases hf : firstUnpaid loan.Payments with
  | none => simp [MakePayment, hl, hf] at hw
  | some found =>
    obtain ⟨i, p⟩ := found
    simp [MakePayment, hl, hf] at hw

theorem makePayment_mismatch_iff_witness :
    lateEngine.Loans "A" = some lateLoan ∧
    ((∃ w, (MakePayment lateEngine "A" 10 0).1 = some (.AmountMismatch w)) ↔
      (10 : ℚ) ≠ lateLoan.WeeklyPayment) ∧
    ((10 : ℚ) ≠ lateLoan.WeeklyPayment →
      MakePayment lateEngine "A" 10 0 =
        (some (.AmountMismatch lateLoan.WeeklyPayment), lateEngine)) :=
  ⟨rfl, makePayment_mismatch_iff lateEngine "A" lateLoan 10 0 rfl⟩

/-- Claim C8: for a loan present in the engine all of whose installments are
paid, `MakePayment` with the loan's weekly payment fails with `LoanFullyPaid`
and leaves the engine unchanged: no history record is appended and no
installment changes. -/
theorem makePayment_fully_paid (u : BillingEngine) (id : String) (loan : Loan)
    (amount : ℚ) (paymentDate : Time) (hl : u.Loans id = some loan)
    (hall : ∀ p ∈ loan.Payments, p.Paid = true) (ha : amount = loan.WeeklyPayment) :
    (MakePayment u id amount paymentDate).1 = some .LoanFullyPaid ∧
    (MakePayment u id amount paymentDate).2 = u := by
  have hf : firstUnpaid loan.Payments = none := firstUnpaid_none.mpr hall
  simp [MakePayment, hl, hf, ha]

theorem makePayment_fully_paid_witness :
    lateEngine.Loans "B" = some settledLoan ∧
    (∀ p ∈ settledLoan.Payments, p.Paid = true) ∧
    (MakePayment lateEngine "B" 11 (addDays 0 14)).1 = some .LoanFullyPaid ∧
    (MakePayment lateEngine "B" 11 (addDays 0 14)).2 = lateEngine :=
  ⟨rfl, by simp [settledLoan],
   makePayment_fully_paid lateEngine "B" settledLoan 11 (addDays 0 14) rfl
     (by simp [settledLoan]) rfl⟩

/-- Claim C9: for an identifier absent from the engine, `MakePayment` and
`GetPaymentSchedule` fail with `LoanNotFound` and change nothing, while
`GetOutstanding` returns 0 and `IsDelinquent` returns false for every instant,
present or not; and `IsDelinquent` returns false without an instant, for any
identifier. -/
theorem absent_loan_results (u : BillingEngine) (id : String) (h : u.Loans id = none) :
    (∀ (amount : ℚ) (paymentDate : Time),
      MakePayment u id amount paymentDate = (some .LoanNotFound, u)) ∧
    GetPaymentSchedule u id = (.error .LoanNotFound, u) ∧
    (∀ currentTime : Option Time, GetOutstanding u id currentTime = some 0) ∧
    (∀ currentTime : Option Time, IsDelinquent u id currentTime = false) ∧
    (∀ anyID : String, IsDelinquent u anyID none = false) := by
  refine ⟨?_, ?_, ?_, ?_, ?_⟩
  · intro amount paymentDate
    simp [MakePayment, h]
  · simp [GetPaymentSchedule, h]
  · intro currentTime
    simp [GetOutstanding, h]
  · intro currentTime
    cases currentTime with
    | none => rfl
    | some t => simp [IsDelinquent, h]
  · intro anyID
    rfl

theorem absent_loan_results_witness :
    lateEngine.Loans "999" = none ∧
    (∀ (amount : ℚ) (paymentDate : Time),
      MakePayment lateEngine "999" amount paymentDate = (some .LoanNotFound, lateEngine)) ∧
    GetPaymentSchedule lateEngine "999" = (.error .LoanNotFound, lateEngine) ∧
    (∀ currentTime : Option Time, GetOutstanding lateEngine "999" currentTime = some 0) ∧
    (∀ currentTime : Option Time, IsDelinquent lateEngine "999" currentTime = false) ∧
    (∀ anyID : String, IsDelinquent lateEngine anyID none = false) :=
  ⟨by decide, absent_loan_results lateEngine "999" (by decide)⟩

/-- Claim C10: whenever `CreateLoan`, `MakePayment` or `GetPaymentSchedule`
returns an error, the engine after the call is the engine before the call: the
same loans with the same fields, paid flags and payment histories. -/
theorem failed_call_keeps_engine (u : BillingEngine) :
    (∀ (id : String) (loanAmount interestRate : ℚ) (termInWeeks : Int) (startDate : Time)
        (e : Err),
      (CreateLoan cal u id loanAmount interestRate termInWeeks startDate).1 = .error e →
      (CreateLoan cal u id loanAmount interestRate termInWeeks startDate).2 = u) ∧
    (∀ (id : String) (amount : ℚ) (paymentDate : Time) (e : Err),
      (MakePayment u id amount paymentDate).1 = some e →
      (MakePayment u id amount paymentDate).2 = u) ∧
    (∀ (id : String) (e : Err),
      (GetPaymentSchedule u id).1 = .error e → (GetPaymentSchedule u id).2 = u) := by
  refine ⟨?_, ?_, ?_⟩
  · intro id loanAmount interestRate termInWeeks startDate e he
    by_cases h : loanAmount ≤ 0 ∨ interestRate ≤ 0 ∨ termInWeeks ≤ 0
    · rw [createLoan_invalid u id loanAmount interestRate termInWeeks startDate h]
    · rcases createLoan_valid_cases u id loanAmount interestRate termInWeeks startDate h with
        hd | ⟨loan, hok⟩
      · rw [hd]
      · rw [hok] at he
        cases he
  · intro id amount paymentDate e he
    cases hl : u.Loans id with
    | none => simp [MakePayment, hl]
    | some loan =>
      by_cases ha : amount = loan.WeeklyPayment
      · subst ha
        cases hf : firstUnpaid loan.Payments with
        | none => simp [MakePayment, hl, hf]
        | some found =>
          obtain ⟨i, p⟩ := found
          simp [MakePayment, hl, hf] at he
      · simp [MakePayment, hl, ha]
  · intro id e he
    cases hl : u.Loans id with
    | none => simp [GetPaymentSchedule, hl]
    | some loan => simp [GetPaymentSchedule, hl]

/-! ## The schedule of a stored loan -/

theorem schedule_fresh (startDate : Time) (weeklyPayment : ℚ) (termInWeeks : Int) :
    scheduleLoop cal startDate weeklyPayment termInWeeks 1 [] =
      paidUpTo cal startDate weeklyPayment termInWeeks.toNat 0 := by
  rw [schedule_of_term]
  simp [paidUpTo, weekEntry]

theorem paidUpTo_length (startDate : Time) (weeklyPayment : ℚ) (term k : Nat) :
    (paidUpTo cal startDate weeklyPayment term k).length = term := by
  simp [paidUpTo]

theorem paidUpTo_getElem? (startDate : Time) (weeklyPayment : ℚ) (term k j : Nat)
    (hj : j < term) :
    (paidUpTo cal startDate weeklyPayment term k)[j]? =
      some { WeekNumber := (j : Int) + 1, DueDate := cal.addDays startDate (7 * ((j : Int) + 1)),
             Amount := weeklyPayment, Paid := decide (j < k) } := by
  simp [paidUpTo, List.getElem?_range hj]

theorem paidUpTo_mem {startDate : Time} {weeklyPayment : ℚ} {term k : Nat} {p : Payment}
    (hp : p ∈ paidUpTo cal startDate weeklyPayment term k) :
    ∃ j : Nat, j < term ∧
      p = { WeekNumber := (j : Int) + 1, DueDate := cal.addDays startDate (7 * ((j : Int) + 1)),
            Amount := weeklyPayment, Paid := decide (j < k) } := by
  simp only [paidUpTo, List.mem_map, List.mem_range] at hp
  obtain ⟨j, hj, rfl⟩ := hp
  exact ⟨j, hj, rfl⟩

theorem firstUnpaid_of_first {payments : List Payment} {i : Nat} {p : Payment}
    (hp : payments[i]? = some p) (hu : p.Paid = false)
    (hprev : ∀ (j : Nat) (q : Payment), j < i → payments[j]? = some q → q.Paid = true) :
    firstUnpaid payments = some (i, p) := by
  have hmem : p ∈ payments := List.getElem?_mem hp
  obtain ⟨i', p', hf⟩ := firstUnpaid_exists ⟨p, hmem, hu⟩
  obtain ⟨h1, h2, h3⟩ := firstUnpaid_some hf
  rcases Nat.lt_trichotomy i' i with hlt | heq | hgt
  · have := hprev i' p' hlt h1
    simp [h2] at this
  · subst heq
    rw [hp] at h1
    rw [hf, Option.some.inj h1]
  · have := h3 i p hgt hp
    simp [hu] at this

theorem firstUnpaid_paidUpTo_lt (startDate : Time) (weeklyPayment : ℚ) (term k : Nat)
    (hk : k < term) :
    firstUnpaid (paidUpTo cal startDate weeklyPayment term k) =
      some (k, { WeekNumber := (k : Int) + 1,
                 DueDate := cal.addDays startDate (7 * ((k : Int) + 1)),
                 Amount := weeklyPayment, Paid := false }) := by
  apply firstUnpaid_of_first
  · rw [paidUpTo_getElem? startDate weeklyPayment term k k hk]
    simp
  · rfl
  · intro j q hj hq
    rw [paidUpTo_getElem? startDate weeklyPayment term k j (by omega)] at hq
    rw [← Option.some.inj hq]
    simpa using hj

theorem firstUnpaid_paidUpTo_ge (startDate : Time) (weeklyPayment : ℚ) (term k : Nat)
    (hk : term ≤ k) : firstUnpaid (paidUpTo cal startDate weeklyPayment term k) = none := by
  rw [firstUnpaid_none]
  intro p hp
  obtain ⟨j, hj, rfl⟩ := paidUpTo_mem hp
  simp only [decide_eq_true_eq]
  omega

theorem paidUpTo_set (startDate : Time) (weeklyPayment : ℚ) (term k : Nat) (hk : k < term) :
    (paidUpTo cal startDate weeklyPayment term k).set k
        { WeekNumber := (k : Int) + 1, DueDate := cal.addDays startDate (7 * ((k : Int) + 1)),
          Amount := weeklyPayment, Paid := true } =
      paidUpTo cal startDate weeklyPayment term (k + 1) := by
  apply List.ext_getElem?
  intro j
  by_cases hj : j < term
  · rw [paidUpTo_getElem? startDate weeklyPayment term (k + 1) j hj, List.getElem?_set]
    by_cases hjk : k = j
    · subst hjk
      simp [paidUpTo_length, hk]
    · rw [if_neg hjk, paidUpTo_getElem? startDate weeklyPayment term k j hj]
      have : (j < k) ↔ (j < k + 1) := by omega
      simp [this]
  · have h1 : (paidUpTo cal startDate weeklyPayment term (k + 1)).length ≤ j := by
      rw [paidUpTo_length]; omega
    have h2 : ((paidUpTo cal startDate weeklyPayment term k).set k
        { WeekNumber := (k : Int) + 1, DueDate := cal.addDays startDate (7 * ((k : Int) + 1)),
          Amount := weeklyPayment, Paid := true }).length ≤ j := by
      rw [List.length_set, paidUpTo_length]; omega
    rw [List.getElem?_eq_none h1, List.getElem?_eq_none h2]

/-! ## The outcomes of a call -/

theorem createLoan_cases (u : BillingEngine) (id : String) (loanAmount interestRate : ℚ)
    (termInWeeks : Int) (startDate : Time) :
    CreateLoan cal u id loanAmount interestRate termInWeeks startDate =
        (.error .InvalidParameters, u) ∨
    CreateLoan cal u id loanAmount interestRate termInWeeks startDate =
        (.error .DuplicateLoan, u) ∨
    (u.Loans id = none ∧ 0 < loanAmount ∧ 0 < interestRate ∧ 0 < termInWeeks ∧
      CreateLoan cal u id loanAmount interestRate termInWeeks startDate =
        (.ok (builtLoan cal id loanAmount interestRate termInWeeks startDate),
         storeLoan u id (builtLoan cal id loanAmount interestRate termInWeeks startDate))) := by
  by_cases h : loanAmount ≤ 0 ∨ interestRate ≤ 0 ∨ termInWeeks ≤ 0
  · left
    exact createLoan_invalid u id loanAmount interestRate termInWeeks startDate h
  · right
    cases hl : u.Loans id with
    | some loan =>
      left
      unfold CreateLoan
      rw [if_neg h, if_pos (by simp [hl])]
    | none =>
      right
      push_neg at h
      obtain ⟨hp, hr, ht⟩ := h
      exact ⟨rfl, hp, hr, ht,
        createLoan_fresh u id loanAmount interestRate termInWeeks startDate hl hp hr ht⟩

theorem makePayment_cases (u : BillingEngine) (loanID : String) (amount : ℚ)
    (paymentDate : Time) :
    MakePayment u loanID amount paymentDate = (some .LoanNotFound, u) ∨
    (∃ loan, u.Loans loanID = some loan ∧
      MakePayment u loanID amount paymentDate =
        (some (.AmountMismatch loan.WeeklyPayment), u)) ∨
    (∃ loan, u.Loans loanID = some loan ∧
      MakePayment u loanID amount paymentDate = (some .LoanFullyPaid, u)) ∨
    (∃ loan i p, u.Loans loanID = some loan ∧ amount = loan.WeeklyPayment ∧
      firstUnpaid loan.Payments = some (i, p) ∧
      MakePayment u loanID amount paymentDate =
        (none, storeLoan u loanID (paidLoan loan i p paymentDate))) := by
  cases hl : u.Loans loanID with
  | none =>
    left
    simp [MakePayment, hl]
  | some loan =>
    right
    by_cases ha : amount = loan.WeeklyPayment
    · right
      subst ha
      cases hf : firstUnpaid loan.Payments with
      | none =>
        left
        exact ⟨loan, rfl, by simp [MakePayment, hl, hf]⟩
      | some found =>
        right
        obtain ⟨i, p⟩ := found
        exact ⟨loan, i, p, rfl, rfl, hf, by simp [MakePayment, hl, hf, paidLoan]⟩
    · left
      exact ⟨loan, rfl, by simp [MakePayment, hl, ha]⟩

theorem builtLoan_inv (id : String) (loanAmount interestRate : ℚ) (termInWeeks : Int)
    (startDate : Time) (hp : 0 < loanAmount) (hr : 0 < interestRate) (ht : 0 < termInWeeks) :
    LoanInv cal (builtLoan cal id loanAmount interestRate termInWeeks startDate) 0 := by
  have htq : (0 : ℚ) < (termInWeeks : ℚ) := by exact_mod_cast ht
  refine ⟨ht, ?_, Nat.zero_le _, ?_, ?_⟩
  · exact div_pos (add_pos hp (mul_pos hp hr)) htq
  · simp only [builtLoan]
    exact schedule_fresh _ _ _
  · simp [builtLoan]

theorem loanInv_firstUnpaid {loan : Loan} {k : Nat} (hinv : LoanInv cal loan k) :
    (k < loan.TermInWeeks.toNat ∧
      firstUnpaid loan.Payments =
        some (k, { WeekNumber := (k : Int) + 1,
                   DueDate := cal.addDays loan.StartDate (7 * ((k : Int) + 1)),
                   Amount := loan.WeeklyPayment, Paid := false })) ∨
    (k = loan.TermInWeeks.toNat ∧ firstUnpaid loan.Payments = none) := by
  obtain ⟨_, _, hk, hpay, _⟩ := hinv
  rcases Nat.lt_or_ge k loan.TermInWeeks.toNat with hlt | hge
  · left
    exact ⟨hlt, by rw [hpay]; exact firstUnpaid_paidUpTo_lt _ _ _ _ hlt⟩
  · right
    exact ⟨Nat.le_antisymm hk hge, by rw [hpay]; exact firstUnpaid_paidUpTo_ge _ _ _ _ hge⟩

theorem paidLoan_inv {loan : Loan} {k : Nat} (hinv : LoanInv cal loan k)
    (hk : k < loan.TermInWeeks.toNat) (paymentDate : Time) :
    LoanInv cal (paidLoan loan k
      { WeekNumber := (k : Int) + 1, DueDate := cal.addDays loan.StartDate (7 * ((k : Int) + 1)),
        Amount := loan.WeeklyPayment, Paid := false } paymentDate) (k + 1) := by
  obtain ⟨ht, hw, _, hpay, hhist⟩ := hinv
  refine ⟨ht, hw, hk, ?_, ?_⟩
  · simp only [paidLoan]
    rw [hpay]
    exact paidUpTo_set _ _ _ _ hk
  · simp only [paidLoan, List.map_append, hhist, List.range_succ, List.map_cons, List.map_nil]

/-! ## Invariants of the reachable engines -/

theorem storeLoan_same (u : BillingEngine) (id : String) (loan : Loan) :
    (storeLoan u id loan).Loans id = some loan := by
  simp [storeLoan]

theorem storeLoan_other (u : BillingEngine) (id k : String) (loan : Loan) (hk : k ≠ id) :
    (storeLoan u id loan).Loans k = u.Loans k := by
  simp [storeLoan, hk]

theorem makePayment_exact_pay (u : BillingEngine) (id : String) (loan : Loan) (k : Nat)
    (paymentDate : Time) (hl : u.Loans id = some loan) (hinv : LoanInv cal loan k)
    (hk : k < loan.TermInWeeks.toNat) :
    MakePayment u id loan.WeeklyPayment paymentDate =
      (none, storeLoan u id (paidLoan loan k
        { WeekNumber := (k : Int) + 1,
          DueDate := cal.addDays loan.StartDate (7 * ((k : Int) + 1)),
          Amount := loan.WeeklyPayment, Paid := false } paymentDate)) := by
  rcases loanInv_firstUnpaid hinv with ⟨_, hf⟩ | ⟨he, _⟩
  · rw [makePayment_accept u id loan k _ paymentDate hl hf]
    rfl
  · omega

theorem makePayment_exact_full (u : BillingEngine) (id : String) (loan : Loan) (k : Nat)
    (paymentDate : Time) (hl : u.Loans id = some loan) (hinv : LoanInv cal loan k)
    (hk : k = loan.TermInWeeks.toNat) :
    MakePayment u id loan.WeeklyPayment paymentDate = (some .LoanFullyPaid, u) := by
  rcases loanInv_firstUnpaid hinv with ⟨hlt, _⟩ | ⟨_, hf⟩
  · omega
  · simp [MakePayment, hl, hf]

theorem makePayment_loan_step (u : BillingEngine) (id : String) (loan : Loan) (k : Nat)
    (hl : u.Loans id = some loan) (hinv : LoanInv cal loan k)
    (payID : String) (amount : ℚ) (paymentDate : Time) :
    ∃ (loan' : Loan) (k' : Nat),
      (MakePayment u payID amount paymentDate).2.Loans id = some loan' ∧
      LoanInv cal loan' k' ∧ k ≤ k' ∧ k' ≤ k + 1 ∧
      loan'.StartDate = loan.StartDate ∧ loan'.TermInWeeks = loan.TermInWeeks ∧
      loan'.WeeklyPayment = loan.WeeklyPayment := by
  have hsame : ∀ e, MakePayment u payID amount paymentDate = (e, u) →
      ∃ (loan' : Loan) (k' : Nat),
        (MakePayment u payID amount paymentDate).2.Loans id = some loan' ∧
        LoanInv cal loan' k' ∧ k ≤ k' ∧ k' ≤ k + 1 ∧
        loan'.StartDate = loan.StartDate ∧ loan'.TermInWeeks = loan.TermInWeeks ∧
        loan'.WeeklyPayment = loan.WeeklyPayment := by
    intro e he
    rw [he]
    exact ⟨loan, k, hl, hinv, le_refl _, Nat.le_succ _, rfl, rfl, rfl⟩
  rcases makePayment_cases u payID amount paymentDate with
    h | ⟨_, _, h⟩ | ⟨_, _, h⟩ | ⟨loan0, i, p, hl0, ha, hf, h⟩
  · exact hsame _ h
  · exact hsame _ h
  · exact hsame _ h
  · by_cases hid : id = payID
    · subst hid
      rw [hl] at hl0
      have hloan : loan0 = loan := (Option.some.inj hl0).symm
      subst hloan
      rcases loanInv_firstUnpaid hinv with ⟨hk, hf'⟩ | ⟨_, hf'⟩
      · rw [hf] at hf'
        have hip := Option.some.inj hf'
        simp only [Prod.mk.injEq] at hip
        obtain ⟨rfl, rfl⟩ := hip
        rw [h]
        exact ⟨_, i + 1, storeLoan_same _ _ _, paidLoan_inv hinv hk paymentDate,
          Nat.le_succ _, le_refl _, rfl, rfl, rfl⟩
      · rw [hf] at hf'
        cases hf'
    · rw [h]
      exact ⟨loan, k, by rw [storeLoan_other _ _ _ _ hid]; exact hl, hinv, le_refl _,
        Nat.le_succ _, rfl, rfl, rfl⟩

theorem createLoan_loan_step (u : BillingEngine) (id : String) (loan : Loan)
    (hl : u.Loans id = some loan) (newID : String) (loanAmount interestRate : ℚ)
    (termInWeeks : Int) (startDate : Time) :
    (CreateLoan cal u newID loanAmount interestRate termInWeeks startDate).2.Loans id =
      some loan := by
  rcases createLoan_cases u newID loanAmount interestRate termInWeeks startDate with
    h | h | ⟨hnone, _, _, _, h⟩
  · rw [h]; exact hl
  · rw [h]; exact hl
  · rw [h]
    have hid : id ≠ newID := by
      intro he
      subst he
      rw [hl] at hnone
      cases hnone
    rw [storeLoan_other _ _ _ _ hid]
    exact hl

theorem reachable_loanInv {u : BillingEngine} (hr : Reachable cal u) :
    ∀ (id : String) (loan : Loan), u.Loans id = some loan → ∃ k, LoanInv cal loan k := by
  induction hr with
  | init =>
    intro id loan h
    simp [NewBillingEngine] at h
  | createLoan u newID loanAmount interestRate termInWeeks startDate _ ih =>
    intro id loan h
    rcases createLoan_cases u newID loanAmount interestRate termInWeeks startDate with
      hc | hc | ⟨_, hp, hrate, ht, hc⟩
    · rw [hc] at h
      exact ih id loan h
    · rw [hc] at h
      exact ih id loan h
    · rw [hc] at h
      by_cases hid : id = newID
      · subst hid
        rw [storeLoan_same] at h
        rw [← Option.some.inj h]
        exact ⟨0, builtLoan_inv _ _ _ _ _ hp hrate ht⟩
      · rw [storeLoan_other _ _ _ _ hid] at h
        exact ih id loan h
  | makePayment u payID amount paymentDate _ ih =>
    intro id loan h
    cases hl : u.Loans id with
    | none =>
      rcases makePayment_cases u payID amount paymentDate with
        hc | ⟨_, _, hc⟩ | ⟨_, _, hc⟩ | ⟨loan0, i, p, hl0, _, _, hc⟩
      · rw [hc, hl] at h; cases h
      · rw [hc, hl] at h; cases h
      · rw [hc, hl] at h; cases h
      · rw [hc] at h
        have hid : id ≠ payID := by
          intro he
          subst he
          rw [hl] at hl0
          cases hl0
        rw [storeLoan_other _ _ _ _ hid, hl] at h
        cases h
    | some old =>
      obtain ⟨k, hk⟩ := ih id old hl
      obtain ⟨loan', k', h1, h2, _⟩ :=
        makePayment_loan_step u id old k hl hk payID amount paymentDate
      rw [h1] at h
      rw [← Option.some.inj h]
      exact ⟨k', h2⟩

/-! ## The weekly payment -/

/-- Claim C11: for an identifier not yet present and strictly positive
principal, rate and term, the weekly payment of the loan that `CreateLoan`
returns satisfies `weeklyPayment * term = principal * (1 + rate)` in exact
arithmetic, that is `weeklyPayment = (principal + principal * rate) / term`; for
principal 5,000,000, rate 0.10 and term 50 it is 110,000. -/
theorem weeklyPayment_exact (u : BillingEngine) (id : String) (loanAmount interestRate : ℚ)
    (termInWeeks : Int) (startDate : Time) (hid : u.Loans id = none)
    (hp : 0 < loanAmount) (hr : 0 < interestRate) (ht : 0 < termInWeeks) :
    ∃ loan : Loan,
      (CreateLoan cal u id loanAmount interestRate termInWeeks startDate).1 = .ok loan ∧
      loan.WeeklyPayment * (termInWeeks : ℚ) = loanAmount * (1 + interestRate) ∧
      loan.WeeklyPayment = (loanAmount + loanAmount * interestRate) / (termInWeeks : ℚ) ∧
      (loanAmount = 5000000 → interestRate = 1 / 10 → termInWeeks = 50 →
        loan.WeeklyPayment = 110000) := by
  have htq : (termInWeeks : ℚ) ≠ 0 := by
    have : (0 : ℚ) < (termInWeeks : ℚ) := by exact_mod_cast ht
    exact ne_of_gt this
  rw [createLoan_fresh u id loanAmount interestRate termInWeeks startDate hid hp hr ht]
  refine ⟨_, rfl, ?_, rfl, ?_⟩
  · show (loanAmount + loanAmount * interestRate) / (termInWeeks : ℚ) * (termInWeeks : ℚ) = _
    rw [div_mul_cancel₀ _ htq]
    ring
  · intro h1 h2 h3
    show (loanAmount + loanAmount * interestRate) / (termInWeeks : ℚ) = 110000
    subst h1 h2 h3
    norm_num

theorem weeklyPayment_exact_witness :
    NewBillingEngine.Loans "100" = none ∧ (0 : ℚ) < 5000000 ∧ (0 : ℚ) < 1 / 10 ∧
    (0 : Int) < 50 ∧
    ∃ loan : Loan,
      (CreateLoan utcCalendar NewBillingEngine "100" 5000000 (1 / 10) 50 0).1 = .ok loan ∧
      loan.WeeklyPayment * ((50 : Int) : ℚ) = 5000000 * (1 + 1 / 10) ∧
      loan.WeeklyPayment = (5000000 + 5000000 * (1 / 10)) / ((50 : Int) : ℚ) ∧
      ((5000000 : ℚ) = 5000000 → (1 / 10 : ℚ) = 1 / 10 → (50 : Int) = 50 →
        loan.WeeklyPayment = 110000) :=
  ⟨rfl, by norm_num, by norm_num, by decide,
   weeklyPayment_exact NewBillingEngine "100" 5000000 (1 / 10) 50 0 rfl
     (by norm_num) (by norm_num) (by decide)⟩

/-! ## Monotonicity of the outstanding balance -/

theorem getOutstanding_present (u : BillingEngine) (id : String) (loan : Loan) (asOf : Time)
    (hl : u.Loans id = some loan) :
    GetOutstanding u id (some asOf) = some (outstandingSum asOf loan.Payments) := by
  simp only [GetOutstanding, hl, outstandingLoop_eq, zero_add]

theorem getOutstanding_absent (u : BillingEngine) (id : String) (asOf : Option Time)
    (hl : u.Loans id = none) : GetOutstanding u id asOf = some 0 := by
  simp only [GetOutstanding, hl]

theorem isDelinquent_present (u : BillingEngine) (id : String) (loan : Loan) (asOf : Time)
    (hl : u.Loans id = some loan) :
    IsDelinquent u id (some asOf) = true ↔ 3 ≤ missedTotal asOf loan.Payments := by
  simp only [IsDelinquent, hl]
  rw [delinquentLoop_iff loan.Payments asOf loan.Payments.length 0 (le_refl _) (by decide)]
  simp only [List.take_length, zero_add]
  exact_mod_cast Iff.rfl

theorem outstandingSum_eq_map (asOf : Time) (payments : List Payment) :
    outstandingSum asOf payments =
      (payments.map (fun p => if overdueUnpaid asOf p = true then p.Amount else 0)).sum := by
  induction payments with
  | nil => simp [outstandingSum]
  | cons a rest ih =>
    have hcons : outstandingSum asOf (a :: rest) =
        (if overdueUnpaid asOf a = true then a.Amount else 0) + outstandingSum asOf rest := by
      by_cases h : overdueUnpaid asOf a = true
      · simp [outstandingSum, List.filter_cons, h]
      · simp [outstandingSum, List.filter_cons, h]
    rw [hcons, ih]
    simp

theorem outstandingSum_paidUpTo (asOf startDate : Time) (weeklyPayment : ℚ) (term k : Nat) :
    outstandingSum asOf (paidUpTo cal startDate weeklyPayment term k) =
      ((List.range term).map (fun j : Nat =>
        if cal.addDays startDate (7 * ((j : Int) + 1)) < asOf ∧ ¬ j < k
        then weeklyPayment else 0)).sum := by
  rw [outstandingSum_eq_map, paidUpTo, List.map_map]
  congr 1
  apply List.map_congr_left
  intro j _
  simp only [Function.comp, overdueUnpaid, Bool.and_eq_true, decide_eq_true_eq,
    Bool.not_eq_true', decide_eq_false_iff_not]

theorem outstandingSum_paidUpTo_anti (asOf startDate : Time) (weeklyPayment : ℚ)
    (term k k' : Nat) (hw : 0 ≤ weeklyPayment) (hk : k ≤ k') :
    outstandingSum asOf (paidUpTo cal startDate weeklyPayment term k') ≤
      outstandingSum asOf (paidUpTo cal startDate weeklyPayment term k) := by
  rw [outstandingSum_paidUpTo, outstandingSum_paidUpTo]
  apply List.sum_le_sum
  intro j _
  by_cases h1 : cal.addDays startDate (7 * ((j : Int) + 1)) < asOf ∧ ¬ j < k'
  · have h2 : cal.addDays startDate (7 * ((j : Int) + 1)) < asOf ∧ ¬ j < k :=
      ⟨h1.1, fun h => h1.2 (lt_of_lt_of_le h hk)⟩
    rw [if_pos h1, if_pos h2]
  · rw [if_neg h1]
    split
    · exact hw
    · exact le_refl _

theorem outstandingSum_paidUpTo_mono (t1 t2 startDate : Time) (weeklyPayment : ℚ)
    (term k : Nat) (hw : 0 ≤ weeklyPayment) (ht : t1 ≤ t2) :
    outstandingSum t1 (paidUpTo cal startDate weeklyPayment term k) ≤
      outstandingSum t2 (paidUpTo cal startDate weeklyPayment term k) := by
  rw [outstandingSum_paidUpTo, outstandingSum_paidUpTo]
  apply List.sum_le_sum
  intro j _
  by_cases h1 : cal.addDays startDate (7 * ((j : Int) + 1)) < t1 ∧ ¬ j < k
  · have h2 : cal.addDays startDate (7 * ((j : Int) + 1)) < t2 ∧ ¬ j < k :=
      ⟨lt_of_lt_of_le h1.1 ht, h1.2⟩
    rw [if_pos h1, if_pos h2]
  · rw [if_neg h1]
    split
    · exact hw
    · exact le_refl _

/-- Claim C12: in every engine reachable from the new engine by `CreateLoan`
and `MakePayment` calls, for every identifier, every instant `asOf` and every
`MakePayment` call, accepted or not and on any loan, `GetOutstanding` at `asOf`
after the call is at most its value before the call. -/
theorem outstanding_not_raised_by_payment (u : BillingEngine) (hr : Reachable cal u)
    (id : String) (asOf : Time) (payID : String) (amount : ℚ) (paymentDate : Time) :
    ∃ balanceBefore balanceAfter : ℚ,
      GetOutstanding u id (some asOf) = some balanceBefore ∧
      GetOutstanding (MakePayment u payID amount paymentDate).2 id (some asOf) =
        some balanceAfter ∧
      balanceAfter ≤ balanceBefore := by
  cases hl : u.Loans id with
  | none =>
    have hafter : (MakePayment u payID amount paymentDate).2.Loans id = none := by
      rcases makePayment_cases u payID amount paymentDate with
        hc | ⟨_, _, hc⟩ | ⟨_, _, hc⟩ | ⟨loan0, i, p, hl0, _, _, hc⟩
      · rw [hc]; exact hl
      · rw [hc]; exact hl
      · rw [hc]; exact hl
      · rw [hc]
        have hid : id ≠ payID := by
          intro he
          subst he
          rw [hl] at hl0
          cases hl0
        rw [storeLoan_other _ _ _ _ hid]
        exact hl
    exact ⟨0, 0, getOutstanding_absent u id _ hl, getOutstanding_absent _ id _ hafter,
      le_refl _⟩
  | some loan =>
    obtain ⟨k, hk⟩ := reachable_loanInv hr id loan hl
    obtain ⟨loan', k', h1, h2, hkk, _, hs, ht, hw⟩ :=
      makePayment_loan_step u id loan k hl hk payID amount paymentDate
    refine ⟨_, _, getOutstanding_present u id loan asOf hl,
      getOutstanding_present _ id loan' asOf h1, ?_⟩
    rw [h2.2.2.2.1, hk.2.2.2.1, hs, ht, hw]
    exact outstandingSum_paidUpTo_anti asOf _ _ _ k k' (le_of_lt hk.2.1) hkk

theorem outstanding_not_raised_by_payment_witness :
    Reachable utcCalendar demoEngine ∧
    ∃ balanceBefore balanceAfter : ℚ,
      GetOutstanding demoEngine "100" (some (addDays 0 30)) = some balanceBefore ∧
      GetOutstanding (MakePayment demoEngine "100" 110000 (addDays 0 7)).2 "100"
        (some (addDays 0 30)) = some balanceAfter ∧
      balanceAfter ≤ balanceBefore :=
  ⟨Reachable.createLoan _ _ _ _ _ _ Reachable.init,
   outstanding_not_raised_by_payment demoEngine
     (Reachable.createLoan _ _ _ _ _ _ Reachable.init) "100" (addDays 0 30) "100" 110000
     (addDays 0 7)⟩

/-- Claim C13: in every engine reachable from the new engine by `CreateLoan`
and `MakePayment` calls, for every identifier and all instants `t1 <= t2`,
`GetOutstanding` at `t1` is at most `GetOutstanding` at `t2`. -/
theorem outstanding_monotone_in_time (u : BillingEngine) (hr : Reachable cal u)
    (id : String) (t1 t2 : Time) (ht : t1 ≤ t2) :
    ∃ balance1 balance2 : ℚ,
      GetOutstanding u id (some t1) = some balance1 ∧
      GetOutstanding u id (some t2) = some balance2 ∧
      balance1 ≤ balance2 := by
  cases hl : u.Loans id with
  | none =>
    exact ⟨0, 0, getOutstanding_absent u id _ hl, getOutstanding_absent u id _ hl, le_refl _⟩
  | some loan =>
    obtain ⟨k, hk⟩ := reachable_loanInv hr id loan hl
    refine ⟨_, _, getOutstanding_present u id loan t1 hl,
      getOutstanding_present u id loan t2 hl, ?_⟩
    rw [hk.2.2.2.1]
    exact outstandingSum_paidUpTo_mono t1 t2 _ _ _ k (le_of_lt hk.2.1) ht

theorem outstanding_monotone_in_time_witness :
    Reachable utcCalendar demoEngine ∧ addDays 0 8 ≤ addDays 0 30 ∧
    ∃ balance1 balance2 : ℚ,
      GetOutstanding demoEngine "100" (some (addDays 0 8)) = some balance1 ∧
      GetOutstanding demoEngine "100" (some (addDays 0 30)) = some balance2 ∧
      balance1 ≤ balance2 :=
  ⟨Reachable.createLoan _ _ _ _ _ _ Reachable.init, by decide,
   outstanding_monotone_in_time demoEngine
     (Reachable.createLoan _ _ _ _ _ _ Reachable.init) "100" (addDays 0 8) (addDays 0 30)
     (by decide)⟩

/-! ## Before the first due date -/

theorem forward_due_le (hfw : cal.Forward) (startDate : Time) (k j : Nat) (h : k ≤ j) :
    cal.addDays startDate (7 * ((k : Int) + 1)) ≤
      cal.addDays startDate (7 * ((j : Int) + 1)) := by
  rcases Nat.eq_or_lt_of_le h with he | hlt
  · subst he
    exact le_refl _
  · exact le_of_lt (hfw.1 startDate _ _ (by omega))

theorem outstandingSum_zero_until_due (hfw : cal.Forward) (asOf startDate : Time)
    (weeklyPayment : ℚ) (term k : Nat)
    (h : asOf ≤ cal.addDays startDate (7 * ((k : Int) + 1))) :
    outstandingSum asOf (paidUpTo cal startDate weeklyPayment term k) = 0 := by
  rw [outstandingSum_paidUpTo]
  apply List.sum_eq_zero
  intro x hx
  simp only [List.mem_map, List.mem_range] at hx
  obtain ⟨j, _, rfl⟩ := hx
  rw [if_neg]
  intro hc
  have hle := forward_due_le hfw startDate k j (Nat.le_of_not_lt hc.2)
  exact absurd (lt_of_lt_of_le hc.1 (le_trans h hle)) (lt_irrefl _)

theorem missedTotal_zero_until_due (hfw : cal.Forward) (asOf startDate : Time)
    (weeklyPayment : ℚ) (term k : Nat)
    (h : asOf ≤ cal.addDays startDate (7 * ((k : Int) + 1))) :
    missedTotal asOf (paidUpTo cal startDate weeklyPayment term k) = 0 := by
  rw [missedTotal, List.countP_eq_zero]
  intro p hp
  obtain ⟨j, _, rfl⟩ := paidUpTo_mem hp
  simp only [overdueUnpaid, Bool.and_eq_true, decide_eq_true_eq, not_and,
    Bool.not_eq_true', decide_eq_false_iff_not, not_not]
  intro hc
  by_contra hjk
  have hle := forward_due_le hfw startDate k j (Nat.le_of_not_lt hjk)
  exact absurd (lt_of_lt_of_le hc (le_trans h hle)) (lt_irrefl _)

theorem first_due_le (hfw : cal.Forward) (startDate : Time) (k : Nat) :
    cal.addDays startDate 7 ≤ cal.addDays startDate (7 * ((k : Int) + 1)) := by
  have h := forward_due_le hfw startDate 0 k (Nat.zero_le k)
  simpa using h

theorem runPayments_loan_step (id : String) (calls : List PaymentCall) :
    ∀ (u : BillingEngine) (loan : Loan) (k : Nat), u.Loans id = some loan → LoanInv cal loan k →
      ∃ (loan' : Loan) (k' : Nat),
        (runPayments u calls).2.Loans id = some loan' ∧ LoanInv cal loan' k' ∧ k ≤ k' ∧
        loan'.StartDate = loan.StartDate ∧ loan'.TermInWeeks = loan.TermInWeeks ∧
        loan'.WeeklyPayment = loan.WeeklyPayment := by
  induction calls with
  | nil =>
    intro u loan k hl hinv
    exact ⟨loan, k, hl, hinv, le_refl _, rfl, rfl, rfl⟩
  | cons c rest ih =>
    intro u loan k hl hinv
    obtain ⟨loan1, k1, h1, hinv1, hk1, _, hs1, ht1, hw1⟩ :=
      makePayment_loan_step u id loan k hl hinv c.loanID c.amount c.paymentDate
    obtain ⟨loan2, k2, h2, hinv2, hk2, hs2, ht2, hw2⟩ := ih _ loan1 k1 h1 hinv1
    exact ⟨loan2, k2, h2, hinv2, le_trans hk1 hk2, hs2.trans hs1, ht2.trans ht1,
      hw2.trans hw1⟩

/-- Claim C18: for a loan that `CreateLoan` has just created with start instant
`T0`, in a calendar that moves forward, after any sequence of `MakePayment`
calls, none included, and for every instant `asOf` not later than `T0 + 7`
days, the first due date, `GetOutstanding` returns 0 and `IsDelinquent`
returns false. -/
theorem nothing_overdue_until_first_due (hfw : cal.Forward) (u : BillingEngine)
    (id : String) (loanAmount interestRate : ℚ) (termInWeeks : Int) (T0 : Time)
    (calls : List PaymentCall) (asOf : Time) (hid : u.Loans id = none)
    (hp : 0 < loanAmount) (hr : 0 < interestRate) (ht : 0 < termInWeeks)
    (h : asOf ≤ cal.addDays T0 7) :
    GetOutstanding
        (runPayments (CreateLoan cal u id loanAmount interestRate termInWeeks T0).2 calls).2
        id (some asOf) = some 0 ∧
    IsDelinquent
        (runPayments (CreateLoan cal u id loanAmount interestRate termInWeeks T0).2 calls).2
        id (some asOf) = false := by
  have he0 : (CreateLoan cal u id loanAmount interestRate termInWeeks T0).2 =
      storeLoan u id (builtLoan cal id loanAmount interestRate termInWeeks T0) := by
    rw [createLoan_fresh u id loanAmount interestRate termInWeeks T0 hid hp hr ht]
    rfl
  rw [he0]
  obtain ⟨loan', k', hl', hinv', _, hs, _, _⟩ :=
    runPayments_loan_step id calls
      (storeLoan u id (builtLoan cal id loanAmount interestRate termInWeeks T0))
      (builtLoan cal id loanAmount interestRate termInWeeks T0) 0 (storeLoan_same _ _ _)
      (builtLoan_inv id loanAmount interestRate termInWeeks T0 hp hr ht)
  have hstart : loan'.StartDate = T0 := hs
  have hdue : asOf ≤ cal.addDays T0 (7 * ((k' : Int) + 1)) :=
    le_trans h (first_due_le hfw T0 k')
  constructor
  · rw [getOutstanding_present _ id loan' asOf hl', hinv'.2.2.2.1, hstart,
      outstandingSum_zero_until_due hfw asOf T0 _ _ _ hdue]
  · have hiff := isDelinquent_present _ id loan' asOf hl'
    rw [hinv'.2.2.2.1, hstart, missedTotal_zero_until_due hfw asOf T0 _ _ _ hdue] at hiff
    cases hd : IsDelinquent (runPayments (storeLoan u id
      (builtLoan cal id loanAmount interestRate termInWeeks T0)) calls).2 id (some asOf) with
    | false => rfl
    | true =>
      have := hiff.mp hd
      omega

theorem nothing_overdue_until_first_due_witness :
    utcCalendar.Forward ∧
    NewBillingEngine.Loans "100" = none ∧ (0 : ℚ) < 5000000 ∧ (0 : ℚ) < 1 / 10 ∧
    (0 : Int) < 50 ∧ (0 : Time) ≤ utcCalendar.addDays 0 7 ∧
    GetOutstanding
        (runPayments (CreateLoan utcCalendar NewBillingEngine "100" 5000000 (1 / 10) 50 0).2
          [{ loanID := "100", amount := 110000, paymentDate := addDays 0 7 }]).2
        "100" (some 0) = some 0 ∧
    IsDelinquent
        (runPayments (CreateLoan utcCalendar NewBillingEngine "100" 5000000 (1 / 10) 50 0).2
          [{ loanID := "100", amount := 110000, paymentDate := addDays 0 7 }]).2
        "100" (some 0) = false :=
  ⟨utcCalendar_forward, rfl, by norm_num, by norm_num, by decide, by decide,
   nothing_overdue_until_first_due utcCalendar_forward NewBillingEngine "100" 5000000
     (1 / 10) 50 0 [{ loanID := "100", amount := 110000, paymentDate := addDays 0 7 }] 0 rfl
     (by norm_num) (by norm_num) (by decide) (by decide)⟩

/-! ## The scenario of two payments -/

theorem makePayment_pay_step (u : BillingEngine) (id : String) (loan : Loan) (k : Nat)
    (amount : ℚ) (paymentDate : Time) (hl : u.Loans id = some loan) (hinv : LoanInv cal loan k)
    (hk : k < loan.TermInWeeks.toNat) (ha : amount = loan.WeeklyPayment) :
    (MakePayment u id amount paymentDate).1 = none ∧
    ∃ loan' : Loan,
      (MakePayment u id amount paymentDate).2.Loans id = some loan' ∧
      LoanInv cal loan' (k + 1) ∧ loan'.StartDate = loan.StartDate ∧
      loan'.TermInWeeks = loan.TermInWeeks ∧ loan'.WeeklyPayment = loan.WeeklyPayment ∧
      loan'.PaymentHistory = loan.PaymentHistory ++
        [{ WeekNumber := (k : Int) + 1, Amount := amount, PaymentDate := paymentDate,
           Successful := true }] := by
  subst ha
  rw [makePayment_exact_pay u id loan k paymentDate hl hinv hk]
  exact ⟨rfl, _, storeLoan_same _ _ _, paidLoan_inv hinv hk paymentDate, rfl, rfl, rfl, rfl⟩

theorem scenario_state (T0 : Time) :
    (MakePayment (CreateLoan cal NewBillingEngine "100" 5000000 (1 / 10) 50 T0).2
      "100" 110000 (cal.addDays T0 7)).1 = none ∧
    (MakePayment
      (MakePayment (CreateLoan cal NewBillingEngine "100" 5000000 (1 / 10) 50 T0).2
        "100" 110000 (cal.addDays T0 7)).2
      "100" 110000 (cal.addDays T0 14)).1 = none ∧
    ∃ loan : Loan, (scenarioEngine cal T0).Loans "100" = some loan ∧
      loan.Payments = paidUpTo cal T0 110000 50 2 := by
  have hc := @createLoan_fresh cal NewBillingEngine "100" 5000000 (1 / 10) 50 T0 rfl
    (by norm_num) (by norm_num) (by decide)
  have hinv0 := @builtLoan_inv cal "100" 5000000 (1 / 10) 50 T0
    (by norm_num) (by norm_num) (by decide)
  have hw0 : (110000 : ℚ) = (builtLoan cal "100" 5000000 (1 / 10) 50 T0).WeeklyPayment := by
    simp only [builtLoan]
    norm_num
  have he0 : (CreateLoan cal NewBillingEngine "100" 5000000 (1 / 10) 50 T0).2 =
      storeLoan NewBillingEngine "100" (builtLoan cal "100" 5000000 (1 / 10) 50 T0) := by
    rw [hc]
    rfl
  have hk0 : 0 < (builtLoan cal "100" 5000000 (1 / 10) 50 T0).TermInWeeks.toNat := by
    show 0 < (50 : Int).toNat
    decide
  obtain ⟨hn1, loan1, hl1, hinv1, hs1, ht1, hw1, _⟩ :=
    makePayment_pay_step (storeLoan NewBillingEngine "100" (builtLoan cal "100" 5000000 (1 / 10) 50 T0))
      "100" _ 0 110000 (cal.addDays T0 7) (storeLoan_same _ _ _) hinv0 hk0 hw0
  have hk1 : 0 + 1 < loan1.TermInWeeks.toNat := by
    rw [ht1]
    show 0 + 1 < (50 : Int).toNat
    decide
  obtain ⟨hn2, loan2, hl2, hinv2, hs2, ht2, hw2, _⟩ :=
    makePayment_pay_step _ "100" loan1 (0 + 1) 110000 (cal.addDays T0 14) hl1 hinv1 hk1
      (hw0.trans hw1.symm)
  rw [← he0] at hn1 hn2 hl2
  refine ⟨hn1, hn2, loan2, hl2, ?_⟩
  rw [hinv2.2.2.2.1, hs2, hs1, hw2, hw1, ← hw0, ht2, ht1]
  rfl

theorem scenario_outstanding (T0 asOf : Time) :
    GetOutstanding (scenarioEngine cal T0) "100" (some asOf) =
      some (outstandingSum asOf (paidUpTo cal T0 110000 50 2)) := by
  obtain ⟨_, _, loan, hl, hpay⟩ := scenario_state T0
  rw [getOutstanding_present _ "100" loan asOf hl, hpay]

theorem scenario_zero_until_week_3 (hfw : cal.Forward) (T0 asOf : Time)
    (h : asOf ≤ cal.addDays T0 21) :
    GetOutstanding (scenarioEngine cal T0) "100" (some asOf) = some 0 := by
  rw [scenario_outstanding, outstandingSum_zero_until_due hfw asOf T0 _ _ _]
  have h21 : (7 * (((2 : Nat) : Int) + 1) : Int) = 21 := by norm_num
  rw [h21]
  exact h

/-- Claim C14, as amended: for every start instant `T0`, in a calendar that
moves forward, after creating loan "100" (5,000,000 at 0.10 over 50 weeks from
`T0`) in a new engine and paying 110,000 at `T0 + 7` days and at `T0 + 14`
days, both payments are accepted, `GetOutstanding` at `T0` is 0, and
`GetOutstanding` at `T0 + 21` days is 0 as well, because week 3 is due at that
instant and not before it. -/
theorem scenario_outstanding_values (hfw : cal.Forward) (T0 : Time) :
    (MakePayment (CreateLoan cal NewBillingEngine "100" 5000000 (1 / 10) 50 T0).2
      "100" 110000 (cal.addDays T0 7)).1 = none ∧
    (MakePayment
      (MakePayment (CreateLoan cal NewBillingEngine "100" 5000000 (1 / 10) 50 T0).2
        "100" 110000 (cal.addDays T0 7)).2
      "100" 110000 (cal.addDays T0 14)).1 = none ∧
    GetOutstanding (scenarioEngine cal T0) "100" (some T0) = some 0 ∧
    GetOutstanding (scenarioEngine cal T0) "100" (some (cal.addDays T0 21)) = some 0 := by
  obtain ⟨h1, h2, _⟩ := @scenario_state cal T0
  exact ⟨h1, h2,
    scenario_zero_until_week_3 hfw T0 T0 (le_of_lt (hfw.2 T0 21 (by decide))),
    scenario_zero_until_week_3 hfw T0 (cal.addDays T0 21) (le_refl _)⟩

theorem scenario_outstanding_values_witness :
    utcCalendar.Forward ∧
    GetOutstanding (scenarioEngine utcCalendar 0) "100" (some 0) = some 0 ∧
    GetOutstanding (scenarioEngine utcCalendar 0) "100" (some (utcCalendar.addDays 0 21)) =
      some 0 :=
  ⟨utcCalendar_forward,
   (scenario_outstanding_values utcCalendar_forward 0).2.2⟩

/-- Claim C14 as stated fails: in UTC with `T0 = 0`, after the loan and the two
payments, `GetOutstanding` at `T0 + 21` days is 0, not 110,000. -/
theorem scenario_day_21_is_zero :
    GetOutstanding (scenarioEngine utcCalendar 0) "100" (some (utcCalendar.addDays 0 21)) =
      some 0 ∧
    GetOutstanding (scenarioEngine utcCalendar 0) "100" (some (utcCalendar.addDays 0 21)) ≠
      some 110000 := by
  have h := scenario_zero_until_week_3 utcCalendar_forward 0 (utcCalendar.addDays 0 21)
    (le_refl _)
  refine ⟨h, ?_⟩
  rw [h]
  intro hc
  have := Option.some.inj hc
  norm_num at this

/-! ## Paying a loan in full -/

theorem outstandingSum_all_paid (asOf startDate : Time) (weeklyPayment : ℚ) (term : Nat) :
    outstandingSum asOf (paidUpTo cal startDate weeklyPayment term term) = 0 := by
  rw [outstandingSum_paidUpTo]
  apply List.sum_eq_zero
  intro x hx
  simp only [List.mem_map, List.mem_range] at hx
  obtain ⟨j, hj, rfl⟩ := hx
  rw [if_neg]
  intro hc
  exact hc.2 hj

theorem runPayments_exact (id : String) (dates : List Time) :
    ∀ (u : BillingEngine) (loan : Loan) (k : Nat), u.Loans id = some loan → LoanInv cal loan k →
      k + dates.length ≤ loan.TermInWeeks.toNat →
      (runPayments u (weeklyCalls id loan.WeeklyPayment dates)).1 =
          dates.map (fun _ => none) ∧
      ∃ loan' : Loan,
        (runPayments u (weeklyCalls id loan.WeeklyPayment dates)).2.Loans id = some loan' ∧
        LoanInv cal loan' (k + dates.length) ∧ loan'.StartDate = loan.StartDate ∧
        loan'.TermInWeeks = loan.TermInWeeks ∧ loan'.WeeklyPayment = loan.WeeklyPayment := by
  induction dates with
  | nil =>
    intro u loan k hl hinv _
    exact ⟨rfl, loan, hl, hinv, rfl, rfl, rfl⟩
  | cons d rest ih =>
    intro u loan k hl hinv hlen
    simp only [List.length_cons] at hlen
    obtain ⟨hn, loan1, hl1, hinv1, hs1, ht1, hw1, _⟩ :=
      makePayment_pay_step u id loan k loan.WeeklyPayment d hl hinv (by omega) rfl
    obtain ⟨hres, loan2, hl2, hinv2, hs2, ht2, hw2⟩ :=
      ih (MakePayment u id loan.WeeklyPayment d).2 loan1 (k + 1) hl1 hinv1
        (by rw [ht1]; omega)
    rw [hw1] at hres hl2
    refine ⟨?_, loan2, ?_, ?_, hs2.trans hs1, ht2.trans ht1, hw2.trans hw1⟩
    · simp only [weeklyCalls, List.map_cons, runPayments, hn]
      exact congrArg _ hres
    · simpa only [weeklyCalls, List.map_cons, runPayments] using hl2
    · have : k + 1 + rest.length = k + (rest.length + 1) := by omega
      rw [List.length_cons, ← this]
      exact hinv2

theorem loanInv_history_weeks {loan : Loan} {k : Nat} (hinv : LoanInv cal loan k) :
    loan.PaymentHistory.map (fun r => r.WeekNumber) =
      (List.range k).map (fun j : Nat => (j : Int) + 1) := by
  have h := congrArg (List.map (fun x : Int × ℚ × Bool => x.1)) hinv.2.2.2.2
  simpa only [List.map_map, Function.comp] using h

theorem createLoan_then_pay (u : BillingEngine) (id : String) (loanAmount interestRate : ℚ)
    (termInWeeks : Int) (startDate : Time) (dates : List Time) (hid : u.Loans id = none)
    (hp : 0 < loanAmount) (hr : 0 < interestRate) (ht : 0 < termInWeeks)
    (hlen : dates.length ≤ termInWeeks.toNat) :
    (runPayments (CreateLoan cal u id loanAmount interestRate termInWeeks startDate).2
      (weeklyCalls id ((loanAmount + loanAmount * interestRate) / (termInWeeks : ℚ))
        dates)).1 = dates.map (fun _ => none) ∧
    ∃ loan : Loan,
      (runPayments (CreateLoan cal u id loanAmount interestRate termInWeeks startDate).2
        (weeklyCalls id ((loanAmount + loanAmount * interestRate) / (termInWeeks : ℚ))
          dates)).2.Loans id = some loan ∧
      LoanInv cal loan dates.length ∧ loan.StartDate = startDate ∧
      loan.TermInWeeks = termInWeeks ∧
      loan.WeeklyPayment = (loanAmount + loanAmount * interestRate) / (termInWeeks : ℚ) := by
  have he0 : (CreateLoan cal u id loanAmount interestRate termInWeeks startDate).2 =
      storeLoan u id (builtLoan cal id loanAmount interestRate termInWeeks startDate) := by
    rw [createLoan_fresh u id loanAmount interestRate termInWeeks startDate hid hp hr ht]
    rfl
  obtain ⟨hres, loan', hl', hinv', hs, ht', hw⟩ :=
    runPayments_exact id dates
      (storeLoan u id (builtLoan cal id loanAmount interestRate termInWeeks startDate))
      (builtLoan cal id loanAmount interestRate termInWeeks startDate) 0 (storeLoan_same _ _ _)
      (builtLoan_inv id loanAmount interestRate termInWeeks startDate hp hr ht)
      (by rw [Nat.zero_add]; exact hlen)
  rw [Nat.zero_add] at hinv'
  rw [he0]
  exact ⟨hres, loan', hl', hinv', hs, ht', hw⟩

/-- Claim C17: for a loan of term `n` that `CreateLoan` has just created from
valid parameters, `n` consecutive `MakePayment` calls with the exact weekly
amount, at any instants, all succeed; after the first `k` of them exactly the
weeks `1..k` are paid and the history holds the weeks `1..k`, so the `k`-th call
pays week `k`; after all `n` every installment is paid and `GetOutstanding` is 0
at every instant; and one more such call fails with `LoanFullyPaid`. -/
theorem pay_every_week (u : BillingEngine) (id : String) (loanAmount interestRate : ℚ)
    (termInWeeks : Int) (startDate : Time) (dates : List Time) (hid : u.Loans id = none)
    (hp : 0 < loanAmount) (hr : 0 < interestRate) (ht : 0 < termInWeeks)
    (hlen : (dates.length : Int) = termInWeeks) :
    (runPayments (CreateLoan cal u id loanAmount interestRate termInWeeks startDate).2
      (weeklyCalls id ((loanAmount + loanAmount * interestRate) / (termInWeeks : ℚ))
        dates)).1 = dates.map (fun _ => none) ∧
    (∀ k : Nat, k ≤ dates.length → ∃ loan : Loan,
      (runPayments (CreateLoan cal u id loanAmount interestRate termInWeeks startDate).2
        (weeklyCalls id ((loanAmount + loanAmount * interestRate) / (termInWeeks : ℚ))
          (dates.take k))).2.Loans id = some loan ∧
      loan.Payments =
        paidUpTo cal startDate ((loanAmount + loanAmount * interestRate) / (termInWeeks : ℚ))
          dates.length k ∧
      loan.PaymentHistory.map (fun r => r.WeekNumber) =
        (List.range k).map (fun j : Nat => (j : Int) + 1)) ∧
    (∃ loan : Loan,
      (runPayments (CreateLoan cal u id loanAmount interestRate termInWeeks startDate).2
        (weeklyCalls id ((loanAmount + loanAmount * interestRate) / (termInWeeks : ℚ))
          dates)).2.Loans id = some loan ∧
      ∀ q ∈ loan.Payments, q.Paid = true) ∧
    (∀ asOf : Time,
      GetOutstanding
        (runPayments (CreateLoan cal u id loanAmount interestRate termInWeeks startDate).2
          (weeklyCalls id ((loanAmount + loanAmount * interestRate) / (termInWeeks : ℚ))
            dates)).2 id (some asOf) = some 0) ∧
    (∀ paymentDate : Time,
      (MakePayment
        (runPayments (CreateLoan cal u id loanAmount interestRate termInWeeks startDate).2
          (weeklyCalls id ((loanAmount + loanAmount * interestRate) / (termInWeeks : ℚ))
            dates)).2
        id ((loanAmount + loanAmount * interestRate) / (termInWeeks : ℚ)) paymentDate).1 =
        some .LoanFullyPaid) := by
  have hn : termInWeeks.toNat = dates.length := by omega
  obtain ⟨hres, loan, hl, hinv, hs, htm, hw⟩ :=
    createLoan_then_pay u id loanAmount interestRate termInWeeks startDate dates hid hp hr ht
      (by omega)
  have hpay : loan.Payments =
      paidUpTo cal startDate ((loanAmount + loanAmount * interestRate) / (termInWeeks : ℚ))
        dates.length dates.length := by
    rw [hinv.2.2.2.1, hs, hw, htm, hn]
  refine ⟨hres, ?_, ⟨loan, hl, ?_⟩, ?_, ?_⟩
  · intro k hk
    have hlk : (dates.take k).length = k := by
      rw [List.length_take]
      omega
    obtain ⟨_, loank, hlk', hinvk, hsk, htk, hwk⟩ :=
      createLoan_then_pay u id loanAmount interestRate termInWeeks startDate (dates.take k)
        hid hp hr ht (by omega)
    rw [hlk] at hinvk
    refine ⟨loank, hlk', ?_, loanInv_history_weeks hinvk⟩
    rw [hinvk.2.2.2.1, hsk, hwk, htk, hn]
  · intro q hq
    rw [hpay] at hq
    obtain ⟨j, hj, rfl⟩ := paidUpTo_mem hq
    simpa using hj
  · intro asOf
    rw [getOutstanding_present _ id loan asOf hl, hpay, outstandingSum_all_paid]
  · intro paymentDate
    have hfull := makePayment_exact_full _ id loan dates.length paymentDate hl hinv
      (by rw [htm, hn])
    rw [hw] at hfull
    rw [hfull]

theorem pay_every_week_witness :
    NewBillingEngine.Loans "7" = none ∧ (0 : ℚ) < 20 ∧ (0 : ℚ) < 1 / 10 ∧ (0 : Int) < 2 ∧
    (([addDays 0 7, addDays 0 14] : List Time).length : Int) = 2 ∧
    (∀ paymentDate : Time,
      (MakePayment
        (runPayments (CreateLoan utcCalendar NewBillingEngine "7" 20 (1 / 10) 2 0).2
          (weeklyCalls "7" ((20 + 20 * (1 / 10)) / ((2 : Int) : ℚ))
            [addDays 0 7, addDays 0 14])).2
        "7" ((20 + 20 * (1 / 10)) / ((2 : Int) : ℚ)) paymentDate).1 =
        some .LoanFullyPaid) :=
  ⟨rfl, by norm_num, by norm_num, by decide, by decide,
   (pay_every_week NewBillingEngine "7" 20 (1 / 10) 2 0 [addDays 0 7, addDays 0 14] rfl
     (by norm_num) (by norm_num) (by decide) (by decide)).2.2.2.2⟩

theorem scenario_reachable (T0 : Time) : Reachable cal (scenarioEngine cal T0) :=
  Reachable.makePayment _ _ _ _
    (Reachable.makePayment _ _ _ _ (Reachable.createLoan _ _ _ _ _ _ Reachable.init))

/-! ## The shape of every stored loan -/

theorem paidUpTo_ascending (startDate : Time) (weeklyPayment : ℚ) (term k : Nat) :
    weeksAscending (paidUpTo cal startDate weeklyPayment term k) := by
  rw [weeksAscending, paidUpTo, List.pairwise_map]
  refine (List.pairwise_lt_range term).imp ?_
  intro a b hab
  show (a : Int) + 1 < (b : Int) + 1
  omega

/-- Claim C15, as amended: in every engine reachable from the new engine by
`CreateLoan` and `MakePayment` calls, in a calendar that moves forward, every
stored loan has as many installments as its term, its `k`-th installment has
week number `k` and is due at the loan's start instant plus `7 * k` days of the
calendar, every installment amount is the loan's weekly payment, each due date
is strictly later than the previous one, the week numbers ascend along the
schedule, and `GetPaymentSchedule` returns exactly this sequence. -/
theorem reachable_schedule_shape (hfw : cal.Forward) (u : BillingEngine)
    (hr : Reachable cal u) (id : String) (loan : Loan) (hl : u.Loans id = some loan) :
    (loan.Payments.length : Int) = loan.TermInWeeks ∧
    (∀ k : Int, 1 ≤ k → k ≤ loan.TermInWeeks →
      ∃ p : Payment, loan.Payments[(k - 1).toNat]? = some p ∧ p.WeekNumber = k ∧
        p.DueDate = cal.addDays loan.StartDate (7 * k)) ∧
    (∀ p ∈ loan.Payments, p.Amount = loan.WeeklyPayment) ∧
    (∀ (j : Nat) (p q : Payment), loan.Payments[j]? = some p →
      loan.Payments[j + 1]? = some q → p.DueDate < q.DueDate) ∧
    weeksAscending loan.Payments ∧
    GetPaymentSchedule u id = (.ok loan.Payments, u) := by
  obtain ⟨n, ht, _, _, hpay, _⟩ := reachable_loanInv hr id loan hl
  refine ⟨?_, ?_, ?_, ?_, ?_, ?_⟩
  · rw [hpay, paidUpTo_length]
    omega
  · intro k h1 hk
    rw [hpay, paidUpTo_getElem? _ _ _ _ _ (by omega)]
    have hcast : (((k - 1).toNat : Nat) : Int) + 1 = k := by omega
    refine ⟨_, rfl, hcast, ?_⟩
    show cal.addDays loan.StartDate (7 * ((((k - 1).toNat : Nat) : Int) + 1)) = _
    rw [hcast]
  · intro p hp
    rw [hpay] at hp
    obtain ⟨j, _, rfl⟩ := paidUpTo_mem hp
    rfl
  · intro j p q hp hq
    rw [hpay] at hp hq
    have hj1 : j + 1 < loan.TermInWeeks.toNat := by
      have := (List.getElem?_eq_some_iff.mp hq).1
      rwa [paidUpTo_length] at this
    rw [paidUpTo_getElem? _ _ _ _ _ (by omega)] at hp
    rw [paidUpTo_getElem? _ _ _ _ _ hj1] at hq
    rw [← Option.some.inj hp, ← Option.some.inj hq]
    show cal.addDays loan.StartDate (7 * ((j : Int) + 1)) <
      cal.addDays loan.StartDate (7 * (((j + 1 : Nat) : Int) + 1))
    exact hfw.1 _ _ _ (by push_cast; omega)
  · rw [hpay]
    exact paidUpTo_ascending _ _ _ _
  · simp [GetPaymentSchedule, hl]

theorem reachable_schedule_shape_witness :
    utcCalendar.Forward ∧ Reachable utcCalendar (scenarioEngine utcCalendar 0) ∧
    ∃ loan : Loan, (scenarioEngine utcCalendar 0).Loans "100" = some loan ∧
      (loan.Payments.length : Int) = loan.TermInWeeks ∧
      weeksAscending loan.Payments ∧
      GetPaymentSchedule (scenarioEngine utcCalendar 0) "100" =
        (.ok loan.Payments, scenarioEngine utcCalendar 0) :=
  ⟨utcCalendar_forward, scenario_reachable 0,
   (@scenario_state utcCalendar 0).2.2.elim fun loan h =>
     ⟨loan, h.1,
      (reachable_schedule_shape utcCalendar_forward (scenarioEngine utcCalendar 0)
        (scenario_reachable 0) "100" loan h.1).1,
      (reachable_schedule_shape utcCalendar_forward (scenarioEngine utcCalendar 0)
        (scenario_reachable 0) "100" loan h.1).2.2.2.2.1,
      (reachable_schedule_shape utcCalendar_forward (scenarioEngine utcCalendar 0)
        (scenario_reachable 0) "100" loan h.1).2.2.2.2.2⟩⟩

/-- Claim C15 as stated fails: in a location that sets its clocks back one
hour ten days after the start instant 0, the loan that `CreateLoan` stores has
week 1 due at day 7 and week 2 due at day 14 plus one hour, so the second due
date is 7 days and one hour after the first, not exactly 7 days. -/
theorem due_dates_not_seven_days_apart :
    Reachable (fallBackCalendar (addDays 0 10))
      (CreateLoan (fallBackCalendar (addDays 0 10)) NewBillingEngine "100" 5000000 (1 / 10)
        50 0).2 ∧
    ∃ loan : Loan,
      (CreateLoan (fallBackCalendar (addDays 0 10)) NewBillingEngine "100" 5000000 (1 / 10)
        50 0).2.Loans "100" = some loan ∧
      (loan.Payments[0]?).map (fun p => p.DueDate) = some (7 * nanosPerDay) ∧
      (loan.Payments[1]?).map (fun p => p.DueDate) =
        some (7 * nanosPerDay + 7 * nanosPerDay + nanosPerHour) ∧
      7 * nanosPerDay + 7 * nanosPerDay + nanosPerHour ≠ 7 * nanosPerDay + 7 * nanosPerDay := by
  refine ⟨Reachable.createLoan _ _ _ _ _ _ Reachable.init, ?_⟩
  rw [@createLoan_fresh (fallBackCalendar (addDays 0 10)) NewBillingEngine "100" 5000000
    (1 / 10) 50 0 rfl (by norm_num) (by norm_num) (by decide)]
  refine ⟨_, storeLoan_same _ _ _, ?_, ?_, by decide⟩
  · show ((scheduleLoop (fallBackCalendar (addDays 0 10)) 0 _ 50 1 [])[0]?).map _ = _
    rw [schedule_fresh, paidUpTo_getElem? _ _ _ _ _ (by decide)]
    decide
  · show ((scheduleLoop (fallBackCalendar (addDays 0 10)) 0 _ 50 1 [])[1]?).map _ = _
    rw [schedule_fresh, paidUpTo_getElem? _ _ _ _ _ (by decide)]
    decide

/-! ## Paid flags and history never shrink -/

theorem onlyGrows_refl (loan : Loan) : onlyGrows loan loan :=
  ⟨fun _ p hp hpaid => ⟨p, hp, hpaid⟩, [], (List.append_nil _).symm⟩

theorem onlyGrows_paidLoan (loan : Loan) (i : Nat) (p : Payment) (paymentDate : Time) :
    onlyGrows loan (paidLoan loan i p paymentDate) := by
  refine ⟨?_, _, rfl⟩
  intro j q hq hpaid
  show ∃ p' : Payment, (loan.Payments.set i { p with Paid := true })[j]? = some p' ∧
    p'.Paid = true
  by_cases hij : i = j
  · subst hij
    have hlt : i < loan.Payments.length := (List.getElem?_eq_some_iff.mp hq).1
    exact ⟨_, List.getElem?_set_self hlt, rfl⟩
  · rw [List.getElem?_set_ne hij]
    exact ⟨q, hq, hpaid⟩

/-- Claim C16: in any engine and for any single call of `CreateLoan` or
`MakePayment`, accepted or not, every loan stored before the call is still
stored after it, every installment of it that was paid is still paid, and its
payment history after the call is the history before the call with records
appended: paid flags never revert and history records are never changed or
removed. -/
theorem call_only_grows (u : BillingEngine) (id : String) (loan : Loan)
    (hl : u.Loans id = some loan) :
    (∀ (newID : String) (loanAmount interestRate : ℚ) (termInWeeks : Int) (startDate : Time),
      ∃ loan' : Loan,
        (CreateLoan cal u newID loanAmount interestRate termInWeeks startDate).2.Loans id =
          some loan' ∧ onlyGrows loan loan') ∧
    (∀ (payID : String) (amount : ℚ) (paymentDate : Time),
      ∃ loan' : Loan,
        (MakePayment u payID amount paymentDate).2.Loans id = some loan' ∧
        onlyGrows loan loan') := by
  constructor
  · intro newID loanAmount interestRate termInWeeks startDate
    exact ⟨loan,
      createLoan_loan_step u id loan hl newID loanAmount interestRate termInWeeks startDate,
      onlyGrows_refl loan⟩
  · intro payID amount paymentDate
    rcases makePayment_cases u payID amount paymentDate with
      hc | ⟨_, _, hc⟩ | ⟨_, _, hc⟩ | ⟨loan0, i, p, hl0, _, _, hc⟩
    · rw [hc]; exact ⟨loan, hl, onlyGrows_refl loan⟩
    · rw [hc]; exact ⟨loan, hl, onlyGrows_refl loan⟩
    · rw [hc]; exact ⟨loan, hl, onlyGrows_refl loan⟩
    · rw [hc]
      by_cases hid : id = payID
      · subst hid
        rw [hl] at hl0
        have hloan : loan0 = loan := (Option.some.inj hl0).symm
        subst hloan
        exact ⟨_, storeLoan_same _ _ _, onlyGrows_paidLoan loan0 i p paymentDate⟩
      · exact ⟨loan, by rw [storeLoan_other _ _ _ _ hid]; exact hl, onlyGrows_refl loan⟩

theorem call_only_grows_witness :
    lateEngine.Loans "A" = some lateLoan ∧
    (∃ loan' : Loan,
      (MakePayment lateEngine "A" 11 (addDays 0 14)).2.Loans "A" = some loan' ∧
      onlyGrows lateLoan loan') :=
  ⟨rfl, (@call_only_grows utcCalendar lateEngine "A" lateLoan rfl).2 "A" 11 (addDays 0 14)⟩

/-! ## Paid installments and the history -/

theorem range_filter_lt_length (k : Nat) :
    ∀ n : Nat, ((List.range n).filter (fun j => decide (j < k))).length = min k n := by
  intro n
  induction n with
  | zero => simp
  | succ n ih =>
    rw [List.range_succ, List.filter_append, List.length_append, ih]
    by_cases h : n < k
    · simp only [List.filter_cons, h, decide_True, if_true, List.filter_nil, List.length_cons,
        List.length_nil]
      omega
    · simp only [List.filter_cons, h, decide_False, List.filter_nil, List.length_nil]
      simp only [Bool.false_eq_true, if_false, List.length_nil]
      omega

theorem paidUpTo_paid_count (startDate : Time) (weeklyPayment : ℚ) (term k : Nat)
    (hk : k ≤ term) :
    ((paidUpTo cal startDate weeklyPayment term k).filter (fun p => p.Paid)).length = k := by
  rw [paidUpTo, List.filter_map, List.length_map]
  have h := range_filter_lt_length k term
  rw [Nat.min_eq_left hk] at h
  exact h

/-- Claim C19: in every engine reachable from the new engine by `CreateLoan`
and `MakePayment` calls, the paid installments of every loan come first in its
schedule: when the installment of week `k` is paid, so is every installment
with a lower week number, and no unpaid installment stands before a paid one. -/
theorem paid_installments_come_first (u : BillingEngine) (hr : Reachable cal u) (id : String)
    (loan : Loan) (hl : u.Loans id = some loan) :
    (∀ p ∈ loan.Payments, ∀ q ∈ loan.Payments,
      p.Paid = true → q.WeekNumber < p.WeekNumber → q.Paid = true) ∧
    (∀ (i j : Nat) (q p : Payment), i < j → loan.Payments[i]? = some q →
      loan.Payments[j]? = some p → p.Paid = true → q.Paid = true) := by
  obtain ⟨n, _, _, _, hpay, _⟩ := reachable_loanInv hr id loan hl
  rw [hpay]
  constructor
  · intro p hp q hq hpaid hweek
    obtain ⟨a, _, rfl⟩ := paidUpTo_mem hp
    obtain ⟨b, _, rfl⟩ := paidUpTo_mem hq
    have ha : a < n := by simpa using hpaid
    have hba : (b : Int) + 1 < (a : Int) + 1 := hweek
    have : b < n := by omega
    simpa using this
  · intro i j q p hij hq hp hpaid
    have hj : j < loan.TermInWeeks.toNat := by
      have := (List.getElem?_eq_some_iff.mp hp).1
      rwa [paidUpTo_length] at this
    rw [paidUpTo_getElem? _ _ _ _ _ (by omega)] at hq
    rw [paidUpTo_getElem? _ _ _ _ _ hj] at hp
    rw [← Option.some.inj hp] at hpaid
    rw [← Option.some.inj hq]
    have hjn : j < n := by simpa using hpaid
    have : i < n := by omega
    simpa using this

theorem paid_installments_come_first_witness :
    Reachable utcCalendar (scenarioEngine utcCalendar 0) ∧
    ∃ loan : Loan, (scenarioEngine utcCalendar 0).Loans "100" = some loan ∧
      ∀ p ∈ loan.Payments, ∀ q ∈ loan.Payments,
        p.Paid = true → q.WeekNumber < p.WeekNumber → q.Paid = true :=
  ⟨scenario_reachable 0,
   (scenario_state 0).2.2.elim fun loan h =>
     ⟨loan, h.1,
      (paid_installments_come_first (scenarioEngine utcCalendar 0) (scenario_reachable 0) "100" loan
        h.1).1⟩⟩

/-- Claim C20: in every engine reachable from the new engine by `CreateLoan`
and `MakePayment` calls, every loan has as many history records as paid
installments, at most its term; the `i`-th record has week number `i`, the
loan's weekly payment as amount and success = true. -/
theorem history_matches_paid (u : BillingEngine) (hr : Reachable cal u) (id : String)
    (loan : Loan) (hl : u.Loans id = some loan) :
    loan.PaymentHistory.length = (loan.Payments.filter (fun p => p.Paid)).length ∧
    (loan.PaymentHistory.length : Int) ≤ loan.TermInWeeks ∧
    (∀ i : Int, 1 ≤ i → i ≤ (loan.PaymentHistory.length : Int) →
      ∃ r : PaymentRecord, loan.PaymentHistory[(i - 1).toNat]? = some r ∧
        r.WeekNumber = i ∧ r.Amount = loan.WeeklyPayment ∧ r.Successful = true) := by
  obtain ⟨n, ht, _, hn, hpay, hhist⟩ := reachable_loanInv hr id loan hl
  have hlen : loan.PaymentHistory.length = n := by
    have := congrArg List.length hhist
    simpa using this
  refine ⟨?_, ?_, ?_⟩
  · rw [hlen, hpay, paidUpTo_paid_count _ _ _ _ hn]
  · rw [hlen]
    omega
  · intro i h1 hi
    rw [hlen] at hi
    have hlt : (i - 1).toNat < loan.PaymentHistory.length := by omega
    have hget : loan.PaymentHistory[(i - 1).toNat]? =
        some loan.PaymentHistory[(i - 1).toNat] := List.getElem?_eq_getElem hlt
    have hproj := congrArg (fun l => l[(i - 1).toNat]?) hhist
    simp only [List.getElem?_map, hget, Option.map_some',
      List.getElem?_range (show (i - 1).toNat < n by omega)] at hproj
    have hproj' := Option.some.inj hproj
    simp only [Prod.mk.injEq] at hproj'
    refine ⟨_, hget, ?_, hproj'.2.1, hproj'.2.2⟩
    rw [hproj'.1]
    omega

theorem history_matches_paid_witness :
    Reachable utcCalendar (scenarioEngine utcCalendar 0) ∧
    ∃ loan : Loan, (scenarioEngine utcCalendar 0).Loans "100" = some loan ∧
      loan.PaymentHistory.length = (loan.Payments.filter (fun p => p.Paid)).length ∧
      (loan.PaymentHistory.length : Int) ≤ loan.TermInWeeks :=
  ⟨scenario_reachable 0,
   (scenario_state 0).2.2.elim fun loan h =>
     ⟨loan, h.1,
      (history_matches_paid (scenarioEngine utcCalendar 0) (scenario_reachable 0) "100" loan h.1).1,
      (history_matches_paid (scenarioEngine utcCalendar 0) (scenario_reachable 0) "100" loan h.1).2.1⟩⟩

/-! ## The installment a payment settles -/

/-- Claim C2: in every engine reachable from the new engine by `CreateLoan` and
`MakePayment` calls, for a loan with at least one unpaid installment,
`MakePayment` with the loan's weekly payment succeeds and marks exactly one
installment: the unpaid installment with the lowest week number, which is the
first unpaid one in schedule order. The choice is made before the payment
instant is looked at. The call replaces position `i` of the schedule by the same
installment with paid = true, appends one history record with that week number,
the amount, the instant and success = true, and leaves the loan's other fields
and all other loans as they were. -/
theorem makePayment_pays_lowest_unpaid (u : BillingEngine) (hr : Reachable cal u)
    (id : String) (loan : Loan) (amount : ℚ) (hl : u.Loans id = some loan)
    (hun : ∃ p ∈ loan.Payments, p.Paid = false) (ha : amount = loan.WeeklyPayment) :
    ∃ (i : Nat) (p : Payment),
      loan.Payments[i]? = some p ∧ p.Paid = false ∧
      (∀ (j : Nat) (q : Payment), j < i → loan.Payments[j]? = some q → q.Paid = true) ∧
      (∀ q ∈ loan.Payments, q.Paid = false → q ≠ p → p.WeekNumber < q.WeekNumber) ∧
      ∀ paymentDate : Time,
        (MakePayment u id amount paymentDate).1 = none ∧
        (MakePayment u id amount paymentDate).2.Loans id =
          some { loan with
                 Payments := loan.Payments.set i { p with Paid := true }
                 PaymentHistory := loan.PaymentHistory ++
                   [{ WeekNumber := p.WeekNumber, Amount := amount,
                      PaymentDate := paymentDate, Successful := true }] } ∧
        ∀ k : String, k ≠ id → (MakePayment u id amount paymentDate).2.Loans k = u.Loans k := by
  obtain ⟨i, p, hf⟩ := firstUnpaid_exists hun
  obtain ⟨h1, h2, h3⟩ := firstUnpaid_some hf
  obtain ⟨n, _, _, _, hpay, _⟩ := reachable_loanInv hr id loan hl
  have hasc : weeksAscending loan.Payments := by
    rw [hpay]
    exact paidUpTo_ascending _ _ _ _
  subst ha
  refine ⟨i, p, h1, h2, h3, ?_, ?_⟩
  · intro q hq hqu hne
    have hle := lowest_week_of_first hasc h1 h3 q hq hqu
    rcases lt_or_eq_of_le hle with hlt | heq
    · exact hlt
    · exfalso
      obtain ⟨j, hj⟩ := List.getElem?_of_mem hq
      have hjl : j < loan.Payments.length := (List.getElem?_eq_some_iff.mp hj).1
      have hil : i < loan.Payments.length := (List.getElem?_eq_some_iff.mp h1).1
      have e1 : loan.Payments[i] = p := (List.getElem?_eq_some_iff.mp h1).2
      have e2 : loan.Payments[j] = q := (List.getElem?_eq_some_iff.mp hj).2
      rcases Nat.lt_trichotomy i j with hlt | he | hgt
      · have := List.pairwise_iff_getElem.mp hasc i j hil hjl hlt
        rw [e1, e2] at this
        omega
      · subst he
        rw [h1] at hj
        exact hne (Option.some.inj hj).symm
      · have := List.pairwise_iff_getElem.mp hasc j i hjl hil hgt
        rw [e1, e2] at this
        omega
  · intro paymentDate
    rw [makePayment_accept u id loan i p paymentDate hl hf]
    refine ⟨rfl, by simp [storeLoan], ?_⟩
    intro k hk
    simp [storeLoan, hk]

theorem makePayment_pays_lowest_unpaid_witness :
    Reachable utcCalendar demoEngine ∧
    ∃ loan : Loan, demoEngine.Loans "100" = some loan ∧
      (∃ p ∈ loan.Payments, p.Paid = false) ∧
      ∃ (i : Nat) (p : Payment),
        loan.Payments[i]? = some p ∧ p.Paid = false ∧
        (∀ q ∈ loan.Payments, q.Paid = false → q ≠ p → p.WeekNumber < q.WeekNumber) ∧
        ∀ paymentDate : Time,
          (MakePayment demoEngine "100" loan.WeeklyPayment paymentDate).1 = none :=
  have hl : demoEngine.Loans "100" =
      some (builtLoan utcCalendar "100" 5000000 (1 / 10) 50 0) := by
    rw [demoEngine, @createLoan_fresh utcCalendar NewBillingEngine "100" 5000000 (1 / 10) 50 0
      rfl (by norm_num) (by norm_num) (by decide)]
    exact storeLoan_same _ _ _
  have hun : ∃ p ∈ (builtLoan utcCalendar "100" 5000000 (1 / 10) 50 0).Payments,
      p.Paid = false := by
    have hp : (builtLoan utcCalendar "100" 5000000 (1 / 10) 50 0).Payments[0]? =
        some { WeekNumber := ((0 : Nat) : Int) + 1,
               DueDate := utcCalendar.addDays 0 (7 * (((0 : Nat) : Int) + 1)),
               Amount := (5000000 + 5000000 * (1 / 10)) / ((50 : Int) : ℚ),
               Paid := decide (0 < 0) } := by
      show (scheduleLoop utcCalendar 0 _ 50 1 [])[0]? = _
      rw [schedule_fresh, paidUpTo_getElem? _ _ _ _ _ (by decide)]
    exact ⟨_, List.getElem?_mem hp, rfl⟩
  ⟨Reachable.createLoan _ _ _ _ _ _ Reachable.init, _, hl, hun,
   (makePayment_pays_lowest_unpaid demoEngine
      (Reachable.createLoan _ _ _ _ _ _ Reachable.init) "100" _ _ hl hun rfl).elim
     fun i hi => hi.elim fun p hp =>
       ⟨i, p, hp.1, hp.2.1, hp.2.2.2.1, fun d => (hp.2.2.2.2 d).1⟩⟩

end Billing
